import Mathlib

/-!
Verification of the content-recovery and exercise-verification engine of the
Cursed-Coddy repository (src/src/ollama/formatter.rs, src/src/ollama/generator.rs,
src/src/lessons/lesson_manager.rs, src/src/execution/*.rs).

Strings are modelled as `List Char`; the Rust code indexes strings by bytes, and
every concrete input used here is ASCII, where byte positions and character
positions coincide.  JSON values are modelled by the inductive `Json`; the JSON
parser `parseJsonStr` models `serde_json::from_str::<serde_json::Value>` (it is
stricter than serde on floating-point literals, `\u` escapes and leading zeros,
none of which occur in the inputs considered here).
-/

/-- The characters of a string literal. -/
def chars (s : String) : List Char := s.data

/-- Left brace character, written via its code point. -/
def lbrace : Char := '\x7b'

/-- Right brace character, written via its code point. -/
def rbrace : Char := '\x7d'

/-- Whitespace as Rust's `char::is_whitespace` sees it, restricted to the ASCII
whitespace characters (the only ones occurring in the modelled inputs). -/
def isRustWs (c : Char) : Bool :=
  c = ' ' || c = '\t' || c = '\n' || c = '\r' || c = '\x0b' || c = '\x0c'

/-- `str::trim`: drop leading and trailing whitespace. -/
def trimBoth (l : List Char) : List Char :=
  ((l.dropWhile isRustWs).reverse.dropWhile isRustWs).reverse

/-- `str::trim_end_matches(',')`: drop every trailing comma. -/
def dropTrailingCommas (l : List Char) : List Char :=
  (l.reverse.dropWhile (fun c => c = ',')).reverse

/-- `str::ends_with(c)`. -/
def endsWithChar (l : List Char) (c : Char) : Bool :=
  l.getLast? = some c

/-- Boolean prefix test (like `str::starts_with`). -/
def isPref : List Char → List Char → Bool
  | [], _ => true
  | _ :: _, [] => false
  | a :: as, b :: bs => a = b && isPref as bs

/-- `str::find(char)`: index of the first occurrence. -/
def findChar : List Char → Char → Option Nat
  | [], _ => none
  | c :: t, x => if c = x then some 0 else (findChar t x).map (· + 1)

/-- `str::rfind(char)`: index of the last occurrence. -/
def rfindChar (l : List Char) (x : Char) : Option Nat :=
  (findChar l.reverse x).map (fun i => l.length - 1 - i)

/-- `str::find(substring)`: index of the first occurrence of `pat`. -/
def findSub (l pat : List Char) : Option Nat :=
  if isPref pat l then some 0 else
    match l with
    | [] => none
    | _ :: t => (findSub t pat).map (· + 1)

/-- `str::contains(substring)`. -/
def containsSub (l pat : List Char) : Bool :=
  (findSub l pat).isSome

/-- `sliceL l a b` is `l[a..b]` (byte slicing, exclusive upper bound). -/
def sliceL (l : List Char) (a b : Nat) : List Char :=
  (l.drop a).take (b - a)

/-- `l[a..=b]`: inclusive slicing. -/
def sliceIncl (l : List Char) (a b : Nat) : List Char :=
  sliceL l a (b + 1)

/-- `str::replace(pat, rep)` on lists of characters, fuelled by the input
length (which always suffices: each step consumes at least one character).
The Rust function with an empty pattern never occurs in the sources. -/
def replaceAllAux : Nat → List Char → List Char → List Char → List Char
  | 0, l, _, _ => l
  | f + 1, l, pat, rep =>
    if pat ≠ [] ∧ isPref pat l then rep ++ replaceAllAux f (l.drop pat.length) pat rep
    else
      match l with
      | [] => []
      | c :: t => c :: replaceAllAux f t pat rep

/-- `str::replace(pat, rep)`. -/
def replaceAll (l pat rep : List Char) : List Char :=
  replaceAllAux l.length l pat rep

/-- `str::to_lowercase`, on the ASCII inputs considered here. -/
def toLowerStr (l : List Char) : List Char :=
  l.map Char.toLower

/-- ASCII digit test. -/
def isDigitCh (c : Char) : Bool :=
  48 ≤ c.toNat && c.toNat ≤ 57

/-! ## JSON values (`serde_json::Value`, without floats) -/

mutual
inductive Json where
  | null : Json
  | jbool : Bool → Json
  | num : Int → Json
  | str : List Char → Json
  | arr : JArr → Json
  | obj : JObj → Json

inductive JArr where
  | nil : JArr
  | cons : Json → JArr → JArr

inductive JObj where
  | nil : JObj
  | cons : List Char → Json → JObj → JObj
end

/-- JSON whitespace (what `serde_json` skips between tokens). -/
def isJsonWs (c : Char) : Bool :=
  c = ' ' || c = '\t' || c = '\n' || c = '\r'

/-- Skip JSON whitespace. -/
def skipWs : List Char → List Char
  | [] => []
  | c :: t => if isJsonWs c then skipWs t else c :: t

/-- Decimal digit to its character. -/
def digitToChar : Nat → Char
  | 0 => '0' | 1 => '1' | 2 => '2' | 3 => '3' | 4 => '4'
  | 5 => '5' | 6 => '6' | 7 => '7' | 8 => '8' | _ => '9'

/-- Decimal digits of a natural number, most significant first (fuelled so the
definition is structurally recursive; the fuel `n + 1` always suffices). -/
def natToCharsAux : Nat → Nat → List Char
  | 0, _ => []
  | f + 1, n =>
    if n < 10 then [digitToChar n]
    else natToCharsAux f (n / 10) ++ [digitToChar (n % 10)]

/-- Decimal digits of a natural number, most significant first. -/
def natToChars (n : Nat) : List Char :=
  natToCharsAux (n + 1) n

/-- Serialization of an integer (as `serde_json` prints integers). -/
def serNum (n : Int) : List Char :=
  if n < 0 then '-' :: natToChars n.natAbs else natToChars n.toNat

/-- JSON string escaping of one character. -/
def escCh (c : Char) : List Char :=
  if c = '"' then ['\\', '"']
  else if c = '\\' then ['\\', '\\']
  else if c = '\n' then ['\\', 'n']
  else if c = '\t' then ['\\', 't']
  else if c = '\r' then ['\\', 'r']
  else [c]

/-- JSON string escaping. -/
def escStr : List Char → List Char
  | [] => []
  | c :: t => escCh c ++ escStr t

/-- Serialization of a JSON string literal. -/
def serStr (s : List Char) : List Char :=
  '"' :: escStr s ++ ['"']

mutual
/-- Canonical serialization of a JSON value (no whitespace, fields in order). -/
def serV : Json → List Char
  | .null => chars "null"
  | .jbool true => chars "true"
  | .jbool false => chars "false"
  | .num n => serNum n
  | .str s => serStr s
  | .arr a => '[' :: serArrInner a ++ [']']
  | .obj o => lbrace :: serObjInner o ++ [rbrace]

/-- Comma-separated serialization of array elements. -/
def serArrInner : JArr → List Char
  | .nil => []
  | .cons x .nil => serV x
  | .cons x (.cons y t) => serV x ++ ',' :: serArrInner (.cons y t)

/-- Comma-separated serialization of object members. -/
def serObjInner : JObj → List Char
  | .nil => []
  | .cons k v .nil => serStr k ++ ':' :: serV v
  | .cons k v (.cons k2 v2 t) => serStr k ++ ':' :: serV v ++ ',' :: serObjInner (.cons k2 v2 t)
end

mutual
/-- Size measure used as parser fuel. -/
def sizeV : Json → Nat
  | .null => 1
  | .jbool _ => 1
  | .num _ => 1
  | .str _ => 1
  | .arr a => sizeA a + 2
  | .obj o => sizeO o + 2

def sizeA : JArr → Nat
  | .nil => 1
  | .cons v t => sizeV v + sizeA t + 2

def sizeO : JObj → Nat
  | .nil => 1
  | .cons _ v t => sizeV v + sizeO t + 2
end

/-- Escape decoding: the character named by `\\x`. -/
def unescCh (c : Char) : Option Char :=
  if c = '"' then some '"'
  else if c = '\\' then some '\\'
  else if c = '/' then some '/'
  else if c = 'n' then some '\n'
  else if c = 't' then some '\t'
  else if c = 'r' then some '\r'
  else if c = 'b' then some '\x08'
  else if c = 'f' then some '\x0c'
  else none

/-- Parse a JSON string body after the opening quote; returns the decoded
characters and the rest after the closing quote.  Raw control characters are
rejected, as `serde_json` rejects them. -/
def parseStrBody : List Char → Option (List Char × List Char)
  | [] => none
  | c :: t =>
    if c = '"' then some ([], t)
    else if c = '\\' then
      match t with
      | [] => none
      | e :: t2 =>
        match unescCh e with
        | some d => (parseStrBody t2).map (fun p => (d :: p.1, p.2))
        | none => none
    else if c.toNat < 32 then none
    else (parseStrBody t).map (fun p => (c :: p.1, p.2))

/-- Split a maximal run of digits off the front. -/
def splitDigits : List Char → List Char × List Char
  | [] => ([], [])
  | c :: t =>
    if isDigitCh c then
      let p := splitDigits t
      (c :: p.1, p.2)
    else ([], c :: t)

/-- Numeric value of a digit list. -/
def digitsToNat (l : List Char) : Nat :=
  l.foldl (fun a c => 10 * a + (c.toNat - 48)) 0

mutual
/-- Parse one JSON value (fuelled recursive descent). -/
def parseV : Nat → List Char → Option (Json × List Char)
  | 0, _ => none
  | f + 1, s =>
    match skipWs s with
    | [] => none
    | c :: t =>
      if c = lbrace then
        (parseObjBody f t).map (fun p => (Json.obj p.1, p.2))
      else if c = '[' then
        (parseArrBody f t).map (fun p => (Json.arr p.1, p.2))
      else if c = '"' then
        (parseStrBody t).map (fun p => (Json.str p.1, p.2))
      else if c = 'n' then
        match t with
        | 'u' :: 'l' :: 'l' :: r => some (Json.null, r)
        | _ => none
      else if c = 't' then
        match t with
        | 'r' :: 'u' :: 'e' :: r => some (Json.jbool true, r)
        | _ => none
      else if c = 'f' then
        match t with
        | 'a' :: 'l' :: 's' :: 'e' :: r => some (Json.jbool false, r)
        | _ => none
      else if c = '-' then
        match splitDigits t with
        | ([], _) => none
        | (ds, r) => some (Json.num (-(Int.ofNat (digitsToNat ds))), r)
      else if isDigitCh c then
        match splitDigits (c :: t) with
        | (ds, r) => some (Json.num (Int.ofNat (digitsToNat ds)), r)
      else none

/-- Parse an array body after `[`. -/
def parseArrBody : Nat → List Char → Option (JArr × List Char)
  | 0, _ => none
  | f + 1, s =>
    match skipWs s with
    | ']' :: r => some (JArr.nil, r)
    | s1 => parseArrElems f s1

/-- Parse one or more comma-separated array elements then `]`. -/
def parseArrElems : Nat → List Char → Option (JArr × List Char)
  | 0, _ => none
  | f + 1, s =>
    match parseV f s with
    | none => none
    | some (v, r) =>
      match skipWs r with
      | ',' :: r2 => (parseArrElems f r2).map (fun p => (JArr.cons v p.1, p.2))
      | ']' :: r2 => some (JArr.cons v JArr.nil, r2)
      | _ => none

/-- Parse an object body after the opening brace. -/
def parseObjBody : Nat → List Char → Option (JObj × List Char)
  | 0, _ => none
  | f + 1, s =>
    match skipWs s with
    | c :: r => if c = rbrace then some (JObj.nil, r) else parseObjMems f (c :: r)
    | [] => none

/-- Parse one or more comma-separated object members then the closing brace. -/
def parseObjMems : Nat → List Char → Option (JObj × List Char)
  | 0, _ => none
  | f + 1, s =>
    match skipWs s with
    | '"' :: r =>
      match parseStrBody r with
      | none => none
      | some (k, r1) =>
        match skipWs r1 with
        | ':' :: r2 =>
          match parseV f r2 with
          | none => none
          | some (v, r3) =>
            match skipWs r3 with
            | ',' :: r4 => (parseObjMems f r4).map (fun p => (JObj.cons k v p.1, p.2))
            | c :: r4 => if c = rbrace then some (JObj.cons k v JObj.nil, r4) else none
            | [] => none
        | _ => none
    | _ => none
end

/-- `serde_json::from_str::<serde_json::Value>`: parse a complete JSON value
with nothing but whitespace after it. -/
def parseJsonStr (s : List Char) : Option Json :=
  match parseV (3 * s.length + 3) s with
  | some (v, rest) => if skipWs rest = [] then some v else none
  | none => none

example : parseJsonStr (chars "\x7b\"a\": [1, -2, \"x\"]\x7d") =
    some (Json.obj (JObj.cons (chars "a")
      (Json.arr (JArr.cons (Json.num 1) (JArr.cons (Json.num (-2))
        (JArr.cons (Json.str (chars "x")) JArr.nil)))) JObj.nil)) := by
  rfl

example : parseJsonStr (chars "\x7b\"a\": 1,\x7d") = none := by rfl

example : parseJsonStr (chars "\x7b\"a\"") = none := by rfl

example : serV (Json.obj (JObj.cons (chars "a") (Json.str (chars "b\nc")) JObj.nil)) =
    chars "\x7b\"a\":\"b\\nc\"\x7d" := by rfl

example : parseJsonStr (serV (Json.obj (JObj.cons (chars "a")
    (Json.arr (JArr.cons (Json.num 10) JArr.nil)) JObj.nil))) =
    some (Json.obj (JObj.cons (chars "a")
      (Json.arr (JArr.cons (Json.num 10) JArr.nil)) JObj.nil)) := by rfl

/-! ## The lesson data model (src/src/ollama/formatter.rs) -/

/-- `CodeExample` of formatter.rs. -/
structure CodeExample where
  code : List Char
  explanation : List Char
deriving DecidableEq

/-- `TestCase` of formatter.rs. -/
structure TestCase where
  input : List Char
  output : List Char
deriving DecidableEq

/-- `Exercise` of formatter.rs. -/
structure Exercise where
  title : List Char
  description : List Char
  hints : List (List Char)
  example_input : Option (List Char)
  example_output : Option (List Char)
  test_cases : List TestCase
deriving DecidableEq

/-- `GeneratedContent` of formatter.rs.  The serde attributes: `concept` is
required; every other field carries `#[serde(default)]`. -/
structure GeneratedContent where
  concept : List Char
  step_by_step : List (List Char)
  code_examples : List CodeExample
  syntax_guide : List Char
  common_patterns : List (List Char)
  exercises : List Exercise
deriving DecidableEq

/-! ### Deserialization, following serde's derive semantics: a struct reads a
JSON object; unknown fields are ignored; a field seen twice is an error; a
missing field is an error unless it is an `Option` (then `None`) or carries
`#[serde(default)]`; `Option<String>` accepts `null` or a string. -/

/-- Decode a JSON string. -/
def decodeStr : Json → Option (List Char)
  | .str s => some s
  | _ => none

/-- Decode an `Option<String>` field value (`null` or a string). -/
def decodeOptStr : Json → Option (Option (List Char))
  | .null => some none
  | .str s => some (some s)
  | _ => none

/-- Decode a `Vec<String>` from a JSON array. -/
def decodeStrList : Json → Option (List (List Char))
  | .arr a => go a
  | _ => none
where
  go : JArr → Option (List (List Char))
  | .nil => some []
  | .cons (.str s) t => (go t).map (fun l => s :: l)
  | .cons _ _ => none

/-- Membership of a key in a JSON object's members. -/
def hasKey (k : List Char) : JObj → Bool
  | .nil => false
  | .cons k2 _ t => k2 = k || hasKey k t

/-- Walk the members of a `TestCase` object: both fields required strings. -/
def decodeTCFields : JObj → Option (List Char) → Option (List Char) →
    Option (Option (List Char) × Option (List Char))
  | .nil, i, o => some (i, o)
  | .cons k v t, i, o =>
    if k = chars "input" then
      match i, decodeStr v with
      | none, some s => decodeTCFields t (some s) o
      | _, _ => none
    else if k = chars "output" then
      match o, decodeStr v with
      | none, some s => decodeTCFields t i (some s)
      | _, _ => none
    else decodeTCFields t i o

/-- Decode a `TestCase`. -/
def decodeTC : Json → Option TestCase
  | .obj ms =>
    match decodeTCFields ms none none with
    | some (some i, some o) => some ⟨i, o⟩
    | _ => none
  | _ => none

/-- Decode a `Vec<TestCase>`. -/
def decodeTCList : Json → Option (List TestCase)
  | .arr a => go a
  | _ => none
where
  go : JArr → Option (List TestCase)
  | .nil => some []
  | .cons v t =>
    match decodeTC v, go t with
    | some tc, some l => some (tc :: l)
    | _, _ => none

/-- Accumulator for decoding an `Exercise`: each field once. -/
structure ExAcc where
  title : Option (List Char)
  description : Option (List Char)
  hints : Option (List (List Char))
  example_input : Option (Option (List Char))
  example_output : Option (Option (List Char))
  test_cases : Option (List TestCase)

/-- Walk the members of an `Exercise` object. -/
def decodeExFields : JObj → ExAcc → Option ExAcc
  | .nil, a => some a
  | .cons k v t, a =>
    if k = chars "title" then
      match a.title, decodeStr v with
      | none, some s => decodeExFields t { a with title := some s }
      | _, _ => none
    else if k = chars "description" then
      match a.description, decodeStr v with
      | none, some s => decodeExFields t { a with description := some s }
      | _, _ => none
    else if k = chars "hints" then
      match a.hints, decodeStrList v with
      | none, some l => decodeExFields t { a with hints := some l }
      | _, _ => none
    else if k = chars "example_input" then
      match a.example_input, decodeOptStr v with
      | none, some o => decodeExFields t { a with example_input := some o }
      | _, _ => none
    else if k = chars "example_output" then
      match a.example_output, decodeOptStr v with
      | none, some o => decodeExFields t { a with example_output := some o }
      | _, _ => none
    else if k = chars "test_cases" then
      match a.test_cases, decodeTCList v with
      | none, some l => decodeExFields t { a with test_cases := some l }
      | _, _ => none
    else decodeExFields t a

/-- Decode an `Exercise`: `title`, `description`, `hints`, `test_cases` are
required; the two `Option<String>` fields default to `None` when absent. -/
def decodeExercise : Json → Option Exercise
  | .obj ms =>
    match decodeExFields ms ⟨none, none, none, none, none, none⟩ with
    | some a =>
      match a.title, a.description, a.hints, a.test_cases with
      | some ti, some de, some hi, some tc =>
        some ⟨ti, de, hi, a.example_input.getD none, a.example_output.getD none, tc⟩
      | _, _, _, _ => none
    | none => none
  | _ => none

/-- Decode a `Vec<Exercise>`. -/
def decodeExerciseList : Json → Option (List Exercise)
  | .arr a => go a
  | _ => none
where
  go : JArr → Option (List Exercise)
  | .nil => some []
  | .cons v t =>
    match decodeExercise v, go t with
    | some e, some l => some (e :: l)
    | _, _ => none

/-- Decode a `CodeExample`: `code` and `explanation` required strings. -/
def decodeCE : Json → Option CodeExample
  | .obj ms => go ms none none
  | _ => none
where
  go : JObj → Option (List Char) → Option (List Char) → Option CodeExample
  | .nil, some c, some e => some ⟨c, e⟩
  | .nil, _, _ => none
  | .cons k v t, c, e =>
    if k = chars "code" then
      match c, decodeStr v with
      | none, some s => go t (some s) e
      | _, _ => none
    else if k = chars "explanation" then
      match e, decodeStr v with
      | none, some s => go t c (some s)
      | _, _ => none
    else go t c e

/-- Decode a `Vec<CodeExample>`. -/
def decodeCEList : Json → Option (List CodeExample)
  | .arr a => go a
  | _ => none
where
  go : JArr → Option (List CodeExample)
  | .nil => some []
  | .cons v t =>
    match decodeCE v, go t with
    | some e, some l => some (e :: l)
    | _, _ => none

/-- Accumulator for decoding a `GeneratedContent`. -/
structure GCAcc where
  concept : Option (List Char)
  step_by_step : Option (List (List Char))
  code_examples : Option (List CodeExample)
  syntax_guide : Option (List Char)
  common_patterns : Option (List (List Char))
  exercises : Option (List Exercise)

/-- Walk the members of a `GeneratedContent` object. -/
def decodeGCFields : JObj → GCAcc → Option GCAcc
  | .nil, a => some a
  | .cons k v t, a =>
    if k = chars "concept" then
      match a.concept, decodeStr v with
      | none, some s => decodeGCFields t { a with concept := some s }
      | _, _ => none
    else if k = chars "step_by_step" then
      match a.step_by_step, decodeStrList v with
      | none, some l => decodeGCFields t { a with step_by_step := some l }
      | _, _ => none
    else if k = chars "code_examples" then
      match a.code_examples, decodeCEList v with
      | none, some l => decodeGCFields t { a with code_examples := some l }
      | _, _ => none
    else if k = chars "syntax_guide" then
      match a.syntax_guide, decodeStr v with
      | none, some s => decodeGCFields t { a with syntax_guide := some s }
      | _, _ => none
    else if k = chars "common_patterns" then
      match a.common_patterns, decodeStrList v with
      | none, some l => decodeGCFields t { a with common_patterns := some l }
      | _, _ => none
    else if k = chars "exercises" then
      match a.exercises, decodeExerciseList v with
      | none, some l => decodeGCFields t { a with exercises := some l }
      | _, _ => none
    else decodeGCFields t a

/-- Deserialize a `GeneratedContent` from a JSON value: `concept` is required,
every other field defaults (empty text or empty sequence) when absent. -/
def decodeGC : Json → Option GeneratedContent
  | .obj ms =>
    match decodeGCFields ms ⟨none, none, none, none, none, none⟩ with
    | some a =>
      match a.concept with
      | some c =>
        some ⟨c, a.step_by_step.getD [], a.code_examples.getD [],
              a.syntax_guide.getD [], a.common_patterns.getD [], a.exercises.getD []⟩
      | none => none
    | none => none
  | _ => none

/-- `GeneratedContent::from_json` (formatter.rs lines 40-44):
`serde_json::from_str` of the raw text. -/
def GeneratedContent.from_json (s : List Char) : Option GeneratedContent :=
  (parseJsonStr s).bind decodeGC

example : GeneratedContent.from_json (chars "\x7b\"concept\": \"c\"\x7d") =
    some ⟨chars "c", [], [], [], [], []⟩ := by rfl

example : GeneratedContent.from_json (chars "\x7b\"exercises\": []\x7d") = none := by rfl

/-! ## JSON extraction and repair (src/src/ollama/generator.rs lines 508-766) -/

/-- The brace scan of `extract_json` (lines 550-575): track brace depth and
string state (honouring backslash escapes) from the first brace; return how
many characters were consumed when a depth-zero closing brace is found
(`end_pos - start`), or `none` when the text ends first. -/
def ejScan : List Char → Int → Bool → Bool → Option Nat
  | [], _, _, _ => none
  | c :: rest, bc, inStr, esc =>
    if esc then (ejScan rest bc inStr false).map (· + 1)
    else if c = '\\' then (ejScan rest bc inStr true).map (· + 1)
    else if c = '"' then (ejScan rest bc (!inStr) false).map (· + 1)
    else if c = lbrace ∧ !inStr then (ejScan rest (bc + 1) inStr false).map (· + 1)
    else if c = rbrace ∧ !inStr then
      if bc - 1 = 0 then some 1
      else (ejScan rest (bc - 1) inStr false).map (· + 1)
    else (ejScan rest bc inStr false).map (· + 1)

/-- The state of `try_extract_incomplete_json`'s scan loop (lines 605-667):
brace count, bracket count, in-string flag, escape flag, `last_valid_pos`,
`last_char_was_colon` (the last is dead state: the source updates it but
never reads it on any path that affects the result). -/
structure TSt where
  bc : Int
  bkc : Int
  inStr : Bool
  esc : Bool
  lvp : Nat
  colon : Bool

/-- The scan loop of `try_extract_incomplete_json` (lines 613-667), including
the early return (lines 632-641): at a depth-zero closing brace, if the span
so far parses, return it (`Sum.inl`); otherwise keep scanning.  `pos` is the
absolute position of `c` in the original text, `acc` the characters already
consumed since the first brace. -/
def teiLoop : List Char → Nat → List Char → TSt → Sum (List Char) TSt
  | [], _, _, st => .inr st
  | c :: rest, pos, acc, st =>
    if st.esc then teiLoop rest (pos + 1) (acc ++ [c]) { st with esc := false }
    else if c = '\\' then teiLoop rest (pos + 1) (acc ++ [c]) { st with esc := true }
    else if c = '"' then
      teiLoop rest (pos + 1) (acc ++ [c]) { st with inStr := !st.inStr, lvp := pos + 1 }
    else if c = lbrace ∧ !st.inStr then
      teiLoop rest (pos + 1) (acc ++ [c]) { st with bc := st.bc + 1, lvp := pos }
    else if c = rbrace ∧ !st.inStr then
      if st.bc - 1 = 0 ∧ (parseJsonStr (trimBoth (acc ++ [c]))).isSome then
        .inl (trimBoth (acc ++ [c]))
      else teiLoop rest (pos + 1) (acc ++ [c]) { st with bc := st.bc - 1, lvp := pos + 1 }
    else if c = '[' ∧ !st.inStr then
      teiLoop rest (pos + 1) (acc ++ [c]) { st with bkc := st.bkc + 1, lvp := pos }
    else if c = ']' ∧ !st.inStr then
      teiLoop rest (pos + 1) (acc ++ [c]) { st with bkc := st.bkc - 1, lvp := pos + 1 }
    else if c = ':' ∧ !st.inStr then
      teiLoop rest (pos + 1) (acc ++ [c]) { st with colon := true }
    else if !st.inStr ∧ (c = ' ' ∨ c = '\n' ∨ c = '\t') then
      teiLoop rest (pos + 1) (acc ++ [c]) { st with colon := false }
    else
      if st.inStr then
        teiLoop rest (pos + 1) (acc ++ [c]) { st with lvp := pos + 1, colon := false }
      else teiLoop rest (pos + 1) (acc ++ [c]) { st with colon := false }

/-- Index of the last quote not preceded by a backslash (lines 683-689). -/
def lastQuoteAux : List Char → Option Char → Nat → Option Nat → Option Nat
  | [], _, _, best => best
  | c :: t, prev, i, best =>
    lastQuoteAux t (some c) (i + 1)
      (if c = '"' ∧ (i = 0 ∨ prev ≠ some '\\') then some i else best)

/-- Index of the last quote not preceded by a backslash. -/
def lastQuote (j : List Char) : Option Nat :=
  lastQuoteAux j none 0 none

/-- The open-string repair (lines 679-703): truncate back to the last
non-escaped quote; if there is none, truncate to the last comma and close the
object; if there is no comma either, leave the span unchanged. -/
def stringCloseFix (j : List Char) : List Char :=
  match lastQuote j with
  | some qi => j.take (qi + 1)
  | none =>
    match rfindChar j ',' with
    | some ci => j.take ci ++ [rbrace]
    | none => j

/-- Field-name pattern searched before injection. -/
def sgPat : List Char := chars "\"syntax_guide\""

/-- Field-name pattern searched before injection. -/
def cpPat : List Char := chars "\"common_patterns\""

/-- Field-name pattern searched before injection. -/
def exPat : List Char := chars "\"exercises\""

/-- Injected text for a missing `syntax_guide`. -/
def sgLit : List Char := chars " \"syntax_guide\": \"\""

/-- Injected text for a missing `common_patterns`. -/
def cpLit : List Char := chars ", \"common_patterns\": []"

/-- Injected text for a missing `exercises`. -/
def exLit : List Char := chars ", \"exercises\": []"

/-- The missing-field injection of `try_extract_incomplete_json`
(lines 711-734): compute which of the three fields are absent, strip trailing
commas, add a separating comma unless the span ends in `[` or an open brace,
and append each still-absent field with its empty default. -/
def injectFields (j0 : List Char) : List Char :=
  let needsEx := !containsSub j0 exPat
  let needsCp := !containsSub j0 cpPat
  let needsSg := !containsSub j0 sgPat
  let j1 := dropTrailingCommas j0
  if needsEx || needsCp || needsSg then
    let j2 := if !endsWithChar j1 lbrace && !endsWithChar j1 '[' then j1 ++ [','] else j1
    let j3 := if needsSg && !containsSub j2 sgPat then j2 ++ sgLit else j2
    let j4 := if needsCp && !containsSub j3 cpPat then j3 ++ cpLit else j3
    let j5 := if needsEx && !containsSub j4 exPat then j4 ++ exLit else j4
    j5
  else j1

/-- Close `n` open objects (lines 737-739). -/
def closeBraces (n : Nat) (j : List Char) : List Char :=
  j ++ List.replicate n rbrace

/-- Pattern of the last-resort reconstruction (line 748). -/
def conceptPat : List Char := chars "\"concept\": "

/-- Tail of the last-resort minimal object (line 756). -/
def minimalTail : List Char :=
  chars ", \"step_by_step\": [], \"code_examples\": [], \"syntax_guide\": \"\", \"common_patterns\": [], \"exercises\": []\x7d"

/-- The last-resort minimal reconstruction (lines 747-762): locate a
`"concept": ` pattern, take the span up to the next two quotes, and build a
minimal object from it plus empty defaults. -/
def aggressiveFix (j : List Char) : Option (List Char) :=
  match findSub j conceptPat with
  | none => none
  | some cs =>
    match (findChar (j.drop cs) '"').map (fun i => cs + i + 1) with
    | none => none
    | some ce =>
      match (findChar (j.drop ce) '"').map (fun i => ce + i + 1) with
      | none => none
      | some cve =>
        let minimal := lbrace :: (sliceL j cs cve ++ minimalTail)
        if (parseJsonStr minimal).isSome then some minimal else none

/-- Final parse attempt of the repair (lines 742-744 and 747-762): keep the
repaired span when it parses, otherwise try the last-resort reconstruction. -/
def teiFinish (j3 : List Char) : Option (List Char) :=
  if (parseJsonStr j3).isSome then some j3 else aggressiveFix j3

/-- Brace-closing stage (lines 710-740): when objects are open, inject missing
fields and close the braces, then finish. -/
def teiClose (bc : Int) (j2 : List Char) : Option (List Char) :=
  teiFinish (if bc > 0 then closeBraces bc.toNat (injectFields j2) else j2)

/-- Bracket-closing stage (lines 705-708): close each unmatched array. -/
def teiBrackets (st : TSt) (j1 : List Char) : Option (List Char) :=
  teiClose st.bc (j1 ++ List.replicate st.bkc.toNat ']')

/-- String-closing stage (lines 676-703): take the inclusive slice up to
`last_valid_pos`, and repair an open string when the scan ended inside one. -/
def teiRepair (text : List Char) (start : Nat) (st : TSt) : Option (List Char) :=
  teiBrackets st
    (if st.inStr then stringCloseFix (sliceIncl text start (min st.lvp (text.length - 1)))
     else sliceIncl text start (min st.lvp (text.length - 1)))

/-- `Generator::try_extract_incomplete_json` (generator.rs lines 602-766). -/
def try_extract_incomplete_json (text : List Char) : Option (List Char) :=
  match findChar text lbrace with
  | none => none
  | some start =>
    match teiLoop (text.drop start) start [] ⟨0, 0, false, false, start, false⟩ with
    | .inl j => some j
    | .inr st =>
      if st.bc > 0 ∨ st.bkc > 0 ∨ st.inStr then teiRepair text start st
      else none

/-- Fence patterns of `extract_json`. -/
def jsonFencePat : List Char := chars "```json"

/-- Fence patterns of `extract_json`. -/
def fencePat : List Char := chars "```"

/-- The error text of `extract_json` (lines 596-599). -/
def ejErr (text : List Char) : List Char :=
  chars "Could not extract valid JSON from response. Response text (first 1000 chars):\n"
    ++ text.take 1000

/-- Shared tail of every candidate attempt (lines 514-519, 533-539, 584-592):
keep the candidate when it parses, otherwise attempt structural repair; fall
back to `next` when both fail. -/
def ejTry (json : List Char) (next : Except (List Char) (List Char)) :
    Except (List Char) (List Char) :=
  if (parseJsonStr json).isSome then .ok json
  else
    match try_extract_incomplete_json json with
    | some j => .ok j
    | none => next

/-- Tail of an unterminated-fence attempt (lines 521-526, 540-546): only the
structural repair is tried on the candidate. -/
def ejTryRepairOnly (json : List Char) (next : Except (List Char) (List Char)) :
    Except (List Char) (List Char) :=
  match try_extract_incomplete_json json with
  | some j => .ok j
  | none => next

/-- The candidate of step 3 (lines 550-582): the span from the first brace to
its depth-zero closing brace, or the whole remainder, trimmed. -/
def ejCandidate3 (text : List Char) (start : Nat) : List Char :=
  match ejScan (text.drop start) 0 false false with
  | some n => trimBoth ((text.drop start).take n)
  | none => trimBoth (text.drop start)

/-- Step 3 of `extract_json` (lines 550-593): scan from the first brace. -/
def ejStep3 (text : List Char) : Except (List Char) (List Char) :=
  match findChar text lbrace with
  | some start => ejTry (ejCandidate3 text start) (.error (ejErr text))
  | none => .error (ejErr text)

/-- The content start of a fenced block: after the first newline following the
fence, `unwrap_or(0)` (lines 511, 531). -/
def fenceContentStart (text : List Char) (start patLen : Nat) : Nat :=
  (findChar (text.drop (start + patLen)) '\n').getD 0 + start + patLen

/-- A fenced attempt after the content start is known (lines 512-526 and
532-546): with a closing fence, try the trimmed span between; without one, try
structural repair on the trimmed remainder. -/
def ejFenced (text : List Char) (json_start : Nat)
    (next : Except (List Char) (List Char)) : Except (List Char) (List Char) :=
  match findSub (text.drop json_start) fencePat with
  | some em => ejTry (trimBoth (sliceL text json_start (json_start + em))) next
  | none => ejTryRepairOnly (trimBoth (text.drop json_start)) next

/-- Step 2 of `extract_json` (lines 529-547): a generic code fence. -/
def ejStep2 (text : List Char) : Except (List Char) (List Char) :=
  match findSub text fencePat with
  | some start => ejFenced text (fenceContentStart text start 3) (ejStep3 text)
  | none => ejStep3 text

/-- `Generator::extract_json` (generator.rs lines 508-600). -/
def extract_json (text : List Char) : Except (List Char) (List Char) :=
  match findSub text jsonFencePat with
  | some start => ejFenced text (fenceContentStart text start 7) (ejStep2 text)
  | none => ejStep2 text



/-! ## The generator's post-processing and fallback content
(src/src/ollama/generator.rs lines 466-505, 958-1204; src/src/config/languages.rs) -/

/-- `Language` of config/languages.rs (the unprimed name is taken by Mathlib). -/
inductive Language' where
  | JavaScript : Language'
  | Cpp : Language'
  | Rust : Language'
deriving DecidableEq

/-- `Language'::display_name`. -/
def display_name : Language' → List Char
  | .JavaScript => chars "JavaScript"
  | .Cpp => chars "C++"
  | .Rust => chars "Rust"

/-- `Generator::generate_test_cases_for_exercise` (generator.rs lines
1160-1204).  The language parameter is unused in the source as well. -/
def generate_test_cases_for_exercise (_language : Language')
    (description example_output : List Char) : List TestCase :=
  let desc_lower := toLowerStr description
  let has_input := containsSub desc_lower (chars "read input") ||
                   containsSub desc_lower (chars "read from stdin") ||
                   containsSub desc_lower (chars "input from")
  if has_input then
    [ ⟨chars "5", replaceAll (replaceAll example_output (chars "42") (chars "5")) (chars "test") (chars "5")⟩,
      ⟨chars "10", replaceAll (replaceAll example_output (chars "42") (chars "10")) (chars "test") (chars "10")⟩,
      ⟨chars "42", example_output⟩ ]
  else
    [ ⟨[], example_output⟩, ⟨[], example_output⟩, ⟨[], example_output⟩ ]

/-- `Generator::generate_topic_specific_content` (generator.rs lines 958-1075):
the curated per-language, per-topic syntax guide and example table.  Each arm
returns either two examples or none, exactly as in the source. -/
def generate_topic_specific_content (language : Language') (topic : List Char) :
    List Char × List CodeExample :=
  let topic_lower := toLowerStr topic
  match language with
  | .Rust =>
    if containsSub topic_lower (chars "random") then
      (chars "To generate random numbers in Rust, use the `rand` crate. Use `use rand::Rng;` and `let mut rng = rand::thread_rng();` to create a random number generator. Generate random numbers with `rng.gen_range(1..=100)` for a range, or `rng.gen::<i32>()` for a random integer.",
       [⟨chars "use rand::Rng;\n\nfn main() \x7b\n    let mut rng = rand::thread_rng();\n    let random_num = rng.gen_range(1..=100);\n    println!(\"Random number: \x7b\x7d\", random_num);\n\x7d", chars "This example shows how to generate a random number between 1 and 100 using the rand crate. The rand dependency will be automatically added to Cargo.toml when you run your code."⟩,
        ⟨chars "use rand::Rng;\n\nfn main() \x7b\n    let mut rng = rand::thread_rng();\n    let random_float = rng.gen::<f64>();\n    println!(\"Random float: \x7b\x7d\", random_float);\n\x7d", chars "This example shows how to generate a random float using gen::<f64>(). This generates a random floating-point number between 0.0 and 1.0."⟩])
    else if containsSub topic_lower (chars "variable") || containsSub topic_lower (chars "mutability") then
      (chars "In Rust, declare variables with `let`. By default, variables are immutable. Use `let mut` to make them mutable. For example: `let x = 5;` creates an immutable variable, while `let mut y = 5;` creates a mutable one. Attempting to modify an immutable variable will cause a compile error.",
       [⟨chars "fn main() \x7b\n    let name = \"Alice\";\n    println!(\"Hello, \x7b\x7d!\", name);\n\x7d", chars "This declares an immutable variable `name` and prints it. The variable cannot be changed after declaration."⟩,
        ⟨chars "fn main() \x7b\n    let mut count = 0;\n    count += 1;\n    println!(\"Count: \x7b\x7d\", count);\n\x7d", chars "This example shows a mutable variable using `let mut`. The variable can be modified after declaration."⟩])
    else if containsSub topic_lower (chars "control flow") || containsSub topic_lower (chars "controlflow") ||
        containsSub topic_lower (chars "condition") || containsSub topic_lower (chars "if") ||
        containsSub topic_lower (chars "else") then
      (chars "Control flow in Rust uses `if`, `else if`, and `else` statements. The condition must be a boolean expression. You can also use `match` for pattern matching. For example: `if x > 5 \x7b println!(\"Greater\"); \x7d else \x7b println!(\"Less or equal\"); \x7d`",
       [⟨chars "fn main() \x7b\n    let number = 7;\n    if number > 5 \x7b\n        println!(\"The number is greater than 5\");\n    \x7d else \x7b\n        println!(\"The number is 5 or less\");\n    \x7d\n\x7d", chars "This example demonstrates a basic if-else statement that checks if a number is greater than 5."⟩,
        ⟨chars "fn main() \x7b\n    let score = 85;\n    if score >= 90 \x7b\n        println!(\"Grade: A\");\n    \x7d else if score >= 80 \x7b\n        println!(\"Grade: B\");\n    \x7d else \x7b\n        println!(\"Grade: C\");\n    \x7d\n\x7d", chars "This example shows an if-else-if chain with multiple conditions to determine a grade based on score."⟩])
    else ([], [])
  | .JavaScript =>
    if containsSub topic_lower (chars "random") then
      (chars "In JavaScript, use `Math.random()` to generate a random number between 0 and 1. Multiply by a range and use `Math.floor()` to get integers. For example: `Math.floor(Math.random() * 100) + 1` generates a number between 1 and 100.",
       [⟨chars "const randomNum = Math.floor(Math.random() * 100) + 1;\nconsole.log(`Random number: $\x7brandomNum\x7d`);", chars "This generates a random integer between 1 and 100 using Math.random()."⟩,
        ⟨chars "function getRandomInRange(min, max) \x7b\n    return Math.floor(Math.random() * (max - min + 1)) + min;\n\x7d\nconst num = getRandomInRange(10, 20);\nconsole.log(`Random number between 10 and 20: $\x7bnum\x7d`);", chars "This example shows a reusable function to generate random numbers within a custom range."⟩])
    else if containsSub topic_lower (chars "control flow") || containsSub topic_lower (chars "controlflow") ||
        containsSub topic_lower (chars "condition") || containsSub topic_lower (chars "if") ||
        containsSub topic_lower (chars "else") then
      (chars "Control flow in JavaScript uses `if`, `else if`, and `else` statements. Conditions can be any expression that evaluates to a truthy or falsy value. For example: `if (x > 5) \x7b console.log('Greater'); \x7d else \x7b console.log('Less or equal'); \x7d`",
       [⟨chars "const number = 7;\nif (number > 5) \x7b\n    console.log('The number is greater than 5');\n\x7d else \x7b\n    console.log('The number is 5 or less');\n\x7d", chars "This example demonstrates a basic if-else statement that checks if a number is greater than 5."⟩,
        ⟨chars "const age = 18;\nif (age >= 18) \x7b\n    console.log('You are an adult');\n\x7d else if (age >= 13) \x7b\n    console.log('You are a teenager');\n\x7d else \x7b\n    console.log('You are a child');\n\x7d", chars "This example shows an if-else-if chain with multiple conditions to categorize age groups."⟩])
    else ([], [])
  | .Cpp =>
    if containsSub topic_lower (chars "random") then
      (chars "In C++, include `<random>` and `<ctime>`. Use `std::mt19937` for the random number generator, seed it with `std::random_device\x7b\x7d()`, and use `std::uniform_int_distribution<>` to generate numbers in a range. For example: `std::uniform_int_distribution<> dis(1, 100);` then `dis(gen)` to get a random number.",
       [⟨chars "#include <iostream>\n#include <random>\n\nint main() \x7b\n    std::random_device rd;\n    std::mt19937 gen(rd());\n    std::uniform_int_distribution<> dis(1, 100);\n    int random_num = dis(gen);\n    std::cout << \"Random number: \" << random_num << std::endl;\n    return 0;\n\x7d", chars "This example shows how to generate a random number between 1 and 100 using C++'s random library."⟩,
        ⟨chars "#include <iostream>\n#include <random>\n\nint main() \x7b\n    std::random_device rd;\n    std::mt19937 gen(rd());\n    std::uniform_real_distribution<double> dis(0.0, 1.0);\n    double random_float = dis(gen);\n    std::cout << \"Random float: \" << random_float << std::endl;\n    return 0;\n\x7d", chars "This example shows how to generate a random floating-point number between 0.0 and 1.0 using uniform_real_distribution."⟩])
    else if containsSub topic_lower (chars "control flow") || containsSub topic_lower (chars "controlflow") ||
        containsSub topic_lower (chars "condition") || containsSub topic_lower (chars "if") ||
        containsSub topic_lower (chars "else") then
      (chars "Control flow in C++ uses `if`, `else if`, and `else` statements. Conditions must evaluate to a boolean value. For example: `if (x > 5) \x7b std::cout << \"Greater\"; \x7d else \x7b std::cout << \"Less or equal\"; \x7d`",
       [⟨chars "#include <iostream>\n\nint main() \x7b\n    int number = 7;\n    if (number > 5) \x7b\n        std::cout << \"The number is greater than 5\" << std::endl;\n    \x7d else \x7b\n        std::cout << \"The number is 5 or less\" << std::endl;\n    \x7d\n    return 0;\n\x7d", chars "This example demonstrates a basic if-else statement that checks if a number is greater than 5."⟩,
        ⟨chars "#include <iostream>\n\nint main() \x7b\n    int temperature = 25;\n    if (temperature > 30) \x7b\n        std::cout << \"It's hot\" << std::endl;\n    \x7d else if (temperature > 20) \x7b\n        std::cout << \"It's warm\" << std::endl;\n    \x7d else \x7b\n        std::cout << \"It's cool\" << std::endl;\n    \x7d\n    return 0;\n\x7d", chars "This example shows an if-else-if chain with multiple conditions to categorize temperature ranges."⟩])
    else ([], [])

/-- `Generator::create_fallback_exercise_with_tests` (generator.rs lines
1077-1158): description, hints and example output from the per-topic lookup,
then generated test cases. -/
def create_fallback_exercise_with_tests (language : Language') (topic : List Char) : Exercise :=
  let topic_lower := toLowerStr topic
  let dho : List Char × List (List Char) × List Char :=
    if containsSub topic_lower (chars "variable") || containsSub topic_lower (chars "mutability") then
      match language with
      | .Rust => (chars "Declare a variable in Rust. Use `let` to create an immutable variable with a value, then print it using `println!()`. For example, declare a variable `name` with your name and print it.", [chars "Use `let variable_name = value;` to declare a variable", chars "Use `println!(\"text \x7b\x7d\", variable_name);` to print the variable"], chars "Your name")
      | .JavaScript => (chars "Declare a variable in JavaScript using `let`, `const`, or `var`. Assign it a value and print it using `console.log()`.", [chars "Use `let variableName = value;` to declare a variable", chars "Use `console.log(variableName);` to print it"], chars "The value of your variable")
      | .Cpp => (chars "Declare a variable in C++ with a type and value, then print it using `cout`.", [chars "Use `type variableName = value;` to declare a variable", chars "Use `std::cout << variableName << std::endl;` to print it"], chars "The value of your variable")
    else if containsSub topic_lower (chars "random") then
      match language with
      | .Rust => (chars "Generate a random number in Rust using the `rand` crate. Use `rand::Rng` and generate a random number between 1 and 100, then print it.", [chars "Use `use rand::Rng;` to import the Rng trait", chars "Use `let mut rng = rand::thread_rng();` to create a generator", chars "Use `rng.gen_range(1..=100)` to generate a number"], chars "Random number between 1 and 100: 42")
      | .JavaScript => (chars "Generate a random number in JavaScript using `Math.random()`. Generate a number between 1 and 100 and print it.", [chars "Use `Math.random()` to get a number between 0 and 1", chars "Multiply by 100 and use `Math.floor()` to get an integer"], chars "Random number between 1 and 100: 42")
      | .Cpp => (chars "Generate a random number in C++ using `<random>`. Generate a number between 1 and 100 and print it.", [chars "Include `<random>` header", chars "Use `std::mt19937` and `std::uniform_int_distribution`"], chars "Random number between 1 and 100: 42")
    else
      (chars "Write code in " ++ display_name language ++ chars " to demonstrate your understanding of "
         ++ topic ++ chars ". Refer to the explanations and examples above.",
       [chars "Review the code examples above", chars "Start with a simple implementation"],
       chars "Output demonstrating " ++ topic)
  ⟨chars "Practice: " ++ topic,
   dho.1,
   dho.2.1,
   some [],
   some dho.2.2,
   generate_test_cases_for_exercise language dho.1 dho.2.2⟩

/-- One padding example of the example floor (generator.rs lines 478-484). -/
def padExample (topic : List Char) (language : Language') (n : Nat) : CodeExample :=
  ⟨chars "// Example " ++ natToChars n ++ chars " for " ++ topic ++ chars " in "
     ++ display_name language ++ chars "\n// Add your code here",
   chars "Example " ++ natToChars n ++ chars " demonstrating " ++ topic ++ chars " in "
     ++ display_name language ++ chars "."⟩

/-- The `while content.code_examples.len() < 2` loop (generator.rs lines
478-485), fuelled by 2 (one iteration per missing example; two always
suffice, since each iteration appends one example). -/
def padExamples : Nat → List Char → Language' → List CodeExample → List CodeExample
  | 0, _, _, xs => xs
  | f + 1, topic, language, xs =>
    if xs.length < 2 then
      padExamples f topic language (xs ++ [padExample topic language (xs.length + 1)])
    else xs

/-- The example floor of `Generator::generate` (generator.rs lines 466-485):
when fewer than two examples are present, first adopt the curated topic
examples if there are any and none were parsed, then pad to two. -/
def ensureExamples (language : Language') (topic : List Char)
    (xs : List CodeExample) : List CodeExample :=
  if xs.length < 2 then
    padExamples 2 topic language
      (if !(generate_topic_specific_content language topic).2.isEmpty && xs.isEmpty then
        (generate_topic_specific_content language topic).2
      else xs)
  else xs

/-- The exercise floor of `Generator::generate` (generator.rs lines 487-503):
an empty exercise list gets the fallback exercise; otherwise every exercise
with no test cases gets generated ones. -/
def ensureExercises (language : Language') (topic : List Char)
    (es : List Exercise) : List Exercise :=
  if es.isEmpty then [create_fallback_exercise_with_tests language topic]
  else
    es.map fun e =>
      if e.test_cases.isEmpty then
        { e with test_cases :=
          generate_test_cases_for_exercise language e.description (e.example_output.getD []) }
      else e

/-- The post-processing block of `Generator::generate` (generator.rs lines
466-505): every content object `generate` returns — parsed, repaired or
synthesized — passes through this block last. -/
def ensure_content_minimums (language : Language') (topic : List Char)
    (content : GeneratedContent) : GeneratedContent :=
  { content with
    code_examples := ensureExamples language topic content.code_examples,
    exercises := ensureExercises language topic content.exercises }

/-! ## Backfill post-processing (src/src/lessons/lesson_manager.rs lines 208-229) -/

/-- The absent-or-blank test of the backfill conditions:
`opt.is_none() || opt.as_ref().map(|s| s.trim().is_empty()).unwrap_or(true)`. -/
def blankOpt : Option (List Char) → Bool
  | none => true
  | some s => (trimBoth s).isEmpty

/-- The body of the backfill loop of `start_lesson_with_content`
(lesson_manager.rs lines 209-229) for one exercise: first `example_output`
is filled from the first test case when absent or blank; then `example_input`
is filled from the first test case's input when that input has non-blank trim,
and with the empty string otherwise (also when there is no test case). -/
def backfill_exercise (e : Exercise) : Exercise :=
  let e1 :=
    if blankOpt e.example_output then
      match e.test_cases.head? with
      | some t => { e with example_output := some t.output }
      | none => e
    else e
  if blankOpt e1.example_input then
    match e1.test_cases.head? with
    | some t =>
      if !(trimBoth t.input).isEmpty then { e1 with example_input := some t.input }
      else { e1 with example_input := some [] }
    | none => { e1 with example_input := some [] }
  else e1

/-- The backfill loop over all exercises (lesson_manager.rs lines 209-229). -/
def backfill_exercises (es : List Exercise) : List Exercise :=
  es.map backfill_exercise

/-! ## Output comparison and the verification loop
(src/src/execution/executor.rs lines 31-33; src/src/lessons/lesson_manager.rs
lines 670-730).  `Executor::execute` performs I/O; the loop is modelled over an
oracle `exec` mapping a test case's input to that execution's outcome. -/

/-- `Executor::compare_output`: `actual.trim() == expected.trim()`. -/
def compare_output (actual expected : List Char) : Bool :=
  trimBoth actual == trimBoth expected

/-- Outcome and verdict of one test case of the loop (lesson_manager.rs lines
694-728): on success the trimmed outputs are compared; an execution error is a
failure for that case. -/
structure CaseResult where
  outcome : Except (List Char) (List Char)
  passed : Bool

/-- One iteration of the verification loop (lesson_manager.rs lines 694-728). -/
def runCase (exec : List Char → Except (List Char) (List Char)) (tc : TestCase) :
    CaseResult :=
  match exec tc.input with
  | .ok out => ⟨.ok out, compare_output out tc.output⟩
  | .error e => ⟨.error e, false⟩

/-- The per-case results of the loop: one execution per test case, in order;
no outcome aborts the iteration (lesson_manager.rs lines 693-729). -/
def runAllCases (exec : List Char → Except (List Char) (List Char))
    (tcs : List TestCase) : List CaseResult :=
  tcs.map (runCase exec)

/-- The `all_passed` aggregation of the loop: it starts `true` and each failing
case sets it `false` (lesson_manager.rs lines 670, 715, 726). -/
def verifyLoop (exec : List Char → Except (List Char) (List Char))
    (tcs : List TestCase) : Bool :=
  tcs.foldl (fun acc tc => acc && (runCase exec tc).passed) true

/-! ## The toolchain runners (src/src/execution/rust_runner.rs,
cpp_runner.rs, js_runner.rs), modelled as effect traces.  Each runner takes an
environment fixing the outcome of every I/O step it can perform and returns
its result together with the ordered list of file-system and process effects
it performed up to its exit. -/

/-- One file-system or process effect of a runner. -/
inductive Eff where
  | checkExists : List Char → Eff
  | readFile : List Char → Eff
  | removeDirAll : List Char → Eff
  | createDirAll : List Char → Eff
  | writeFile : List Char → List Char → Eff
  | spawn : List Char → Eff
  | waitProc : Eff
  | removeFile : List Char → Eff
deriving DecidableEq

/-- The ephemeral Cargo project directory
`file_path.parent().join(format!("cargo_exercise_{}", stem))` (rust_runner.rs
lines 21-26), with the path join modelled abstractly. -/
def cargo_project_dir (file_path : List Char) : List Char :=
  chars "cargo_exercise_" ++ file_path

/-- `file_path.with_extension("")` (cpp_runner.rs line 15), with the extension
change modelled abstractly. -/
def exe_path (file_path : List Char) : List Char :=
  chars "exe_" ++ file_path

/-- `RustRunner::detect_dependencies` (rust_runner.rs lines 91-113). -/
def crate_patterns : List (List Char × List Char) :=
  [ (chars "rand", chars "rand = \"0.8\""),
    (chars "serde", chars "serde = \x7b version = \"1.0\", features = [\"derive\"] \x7d"),
    (chars "serde_json", chars "serde_json = \"1.0\""),
    (chars "tokio", chars "tokio = \x7b version = \"1\", features = [\"full\"] \x7d"),
    (chars "reqwest", chars "reqwest = \x7b version = \"0.12\", features = [\"json\", \"blocking\"] \x7d"),
    (chars "clap", chars "clap = \x7b version = \"4.5\", features = [\"derive\"] \x7d") ]

/-- `RustRunner::detect_dependencies` (rust_runner.rs lines 91-113). -/
def detect_dependencies (code : List Char) : List (List Char) :=
  crate_patterns.filterMap fun p =>
    if containsSub code (chars "use " ++ p.1 ++ chars "::") ||
       containsSub code (chars "use " ++ p.1 ++ chars ";") ||
       containsSub code (chars "extern crate " ++ p.1) then some p.2 else none

/-- `RustRunner::generate_cargo_toml` (rust_runner.rs lines 115-130). -/
def generate_cargo_toml (dependencies : List (List Char)) : List Char :=
  let deps_section :=
    if dependencies.isEmpty then []
    else chars "\n[dependencies]\n" ++ List.intercalate (chars "\n") dependencies ++ chars "\n"
  chars "[package]\nname = \"exercise\"\nversion = \"0.1.0\"\nedition = \"2021\"\n" ++ deps_section

/-- The environment of one `RustRunner::execute` run: the outcome of each I/O
step the runner can perform. -/
structure RustEnv where
  file_exists : Bool
  read_result : Option (List Char)
  dir_exists : Bool
  create_dir_ok : Bool
  write_toml_ok : Bool
  create_src_ok : Bool
  write_main_ok : Bool
  spawn_ok : Bool
  stdin_ok : Bool
  wait_ok : Bool
  status_success : Bool
  run_stdout : List Char
  run_stderr : List Char

/-- `RustRunner::execute` (rust_runner.rs lines 9-89): existence check, read,
pre-existing-directory removal, project synthesis, `cargo run`, cleanup,
status check.  Every `?`/`context` early return exits with the effects
performed so far. -/
def rust_execute (env : RustEnv) (file_path : List Char) (input : Option (List Char)) :
    Except (List Char) (List Char) × List Eff :=
  if !env.file_exists then
    (.error (chars "Exercise file not found: " ++ file_path), [.checkExists file_path])
  else
    match env.read_result with
    | none =>
      (.error (chars "Failed to read exercise file"),
       [.checkExists file_path, .readFile file_path])
    | some code =>
      let dir := cargo_project_dir file_path
      let pre0 := [Eff.checkExists file_path, Eff.readFile file_path] ++
        (if env.dir_exists then [Eff.removeDirAll dir] else [])
      if !env.create_dir_ok then
        (.error (chars "Failed to create Cargo project directory"), pre0 ++ [.createDirAll dir])
      else
        let pre1 := pre0 ++ [Eff.createDirAll dir]
        let tomlEff := Eff.writeFile (dir ++ chars "/Cargo.toml")
          (generate_cargo_toml (detect_dependencies code))
        if !env.write_toml_ok then (.error (chars "Failed to write Cargo.toml"), pre1 ++ [tomlEff])
        else
          let pre2 := pre1 ++ [tomlEff]
          if !env.create_src_ok then
            (.error (chars "Failed to create src directory"), pre2 ++ [.createDirAll (dir ++ chars "/src")])
          else
            let pre3 := pre2 ++ [Eff.createDirAll (dir ++ chars "/src")]
            if !env.write_main_ok then
              (.error (chars "Failed to write main.rs"),
               pre3 ++ [.writeFile (dir ++ chars "/src/main.rs") code])
            else
              let pre4 := pre3 ++ [Eff.writeFile (dir ++ chars "/src/main.rs") code]
              if !env.spawn_ok then
                (.error (chars "Failed to execute cargo run"), pre4 ++ [.spawn (chars "cargo run")])
              else
                let pre5 := pre4 ++ [Eff.spawn (chars "cargo run")]
                if input.isSome && !env.stdin_ok then
                  (.error (chars "Failed to write to stdin"), pre5)
                else if !env.wait_ok then
                  (.error (chars "Failed to wait for cargo process"), pre5 ++ [.waitProc])
                else
                  let pre6 := pre5 ++ [Eff.waitProc, Eff.removeDirAll dir]
                  if !env.status_success then
                    (.error (chars "Compilation or runtime error: " ++ env.run_stderr), pre6)
                  else (.ok env.run_stdout, pre6)

/-- The environment of one `CppRunner::execute` run. -/
structure CppEnv where
  file_exists : Bool
  compile_invoke_ok : Bool
  compile_success : Bool
  compile_stderr : List Char
  spawn_ok : Bool
  stdin_ok : Bool
  wait_ok : Bool
  run_success : Bool
  run_stdout : List Char
  run_stderr : List Char

/-- `CppRunner::execute` (cpp_runner.rs lines 9-66): existence check, compile,
run, artifact removal after the wait, status check. -/
def cpp_execute (env : CppEnv) (file_path : List Char) (input : Option (List Char)) :
    Except (List Char) (List Char) × List Eff :=
  if !env.file_exists then
    (.error (chars "Exercise file not found: " ++ file_path), [.checkExists file_path])
  else
    let exe := exe_path file_path
    let pre0 := [Eff.checkExists file_path, Eff.spawn (chars "g++")]
    if !env.compile_invoke_ok then (.error (chars "Failed to execute g++ command"), pre0)
    else if !env.compile_success then
      (.error (chars "Compilation error: " ++ env.compile_stderr), pre0)
    else if !env.spawn_ok then
      (.error (chars "Failed to execute compiled program"), pre0 ++ [.spawn exe])
    else
      let pre1 := pre0 ++ [Eff.spawn exe]
      if input.isSome && !env.stdin_ok then (.error (chars "Failed to write to stdin"), pre1)
      else if !env.wait_ok then (.error (chars "Failed to wait for process"), pre1 ++ [.waitProc])
      else
        let pre2 := pre1 ++ [Eff.waitProc, Eff.removeFile exe]
        if !env.run_success then (.error (chars "Runtime error: " ++ env.run_stderr), pre2)
        else (.ok env.run_stdout, pre2)

/-- The environment of one `JsRunner::execute` run. -/
structure JsEnv where
  file_exists : Bool
  spawn_ok : Bool
  stdin_ok : Bool
  wait_ok : Bool
  run_success : Bool
  run_stdout : List Char
  run_stderr : List Char

/-- `JsRunner::execute` (js_runner.rs lines 9-47): existence check, `node` on
the file, status check; no artifact to clean. -/
def js_execute (env : JsEnv) (file_path : List Char) (input : Option (List Char)) :
    Except (List Char) (List Char) × List Eff :=
  if !env.file_exists then
    (.error (chars "Exercise file not found: " ++ file_path), [.checkExists file_path])
  else
    let pre0 := [Eff.checkExists file_path, Eff.spawn (chars "node")]
    if !env.spawn_ok then (.error (chars "Failed to execute node command"), pre0)
    else if input.isSome && !env.stdin_ok then (.error (chars "Failed to write to stdin"), pre0)
    else if !env.wait_ok then (.error (chars "Failed to wait for process"), pre0 ++ [.waitProc])
    else if !env.run_success then
      (.error (chars "Execution error: " ++ env.run_stderr), pre0 ++ [.waitProc])
    else (.ok env.run_stdout, pre0 ++ [.waitProc])

/-! ## Shared lemmas -/

/-- `isPref p l` holds exactly when `p` is a prefix of `l`. -/
theorem isPref_iff (p l : List Char) : isPref p l = true ↔ ∃ t, l = p ++ t := by
  induction p generalizing l with
  | nil => simp [isPref]
  | cons a as ih =>
    cases l with
    | nil => simp [isPref]
    | cons b bs =>
      simp only [isPref, Bool.and_eq_true, decide_eq_true_eq, ih]
      constructor
      · rintro ⟨rfl, t, rfl⟩; exact ⟨t, rfl⟩
      · rintro ⟨t, ht⟩
        cases ht
        exact ⟨rfl, t, rfl⟩

/-- `containsSub a p` holds exactly when `p` occurs in `a`. -/
theorem containsSub_iff (a p : List Char) :
    containsSub a p = true ↔ ∃ l r, a = l ++ p ++ r := by
  induction a with
  | nil =>
    constructor
    · intro h
      unfold containsSub findSub at h
      split at h
      · rename_i hp
        rw [isPref_iff] at hp
        obtain ⟨t, ht⟩ := hp
        exact ⟨[], t, by simpa using ht⟩
      · simp at h
    · rintro ⟨l, r, hlr⟩
      have h3 : l = [] ∧ p = [] ∧ r = [] := by
        have := hlr.symm
        simpa [List.append_eq_nil] using this
      obtain ⟨rfl, rfl, rfl⟩ := h3
      simp [containsSub, findSub, isPref]
  | cons c cs ih =>
    constructor
    · intro h
      unfold containsSub findSub at h
      split at h
      · rename_i hp
        rw [isPref_iff] at hp
        obtain ⟨t, ht⟩ := hp
        exact ⟨[], t, by simpa using ht⟩
      · dsimp only at h
        cases hfs : findSub cs p with
        | none => rw [hfs] at h; simp at h
        | some k =>
          have hcs : containsSub cs p = true := by simp [containsSub, hfs]
          obtain ⟨l, r, hlr⟩ := ih.mp hcs
          exact ⟨c :: l, r, by simp [hlr]⟩
    · rintro ⟨l, r, hlr⟩
      unfold containsSub findSub
      split
      · simp
      · rename_i hp
        cases l with
        | nil =>
          exact absurd (isPref_iff p (c :: cs) |>.mpr ⟨r, by simpa using hlr⟩) hp
        | cons x xs =>
          simp only [List.cons_append, List.cons.injEq] at hlr
          obtain ⟨rfl, hcs⟩ := hlr
          have h2 : containsSub cs p = true := ih.mpr ⟨xs, r, hcs⟩
          unfold containsSub at h2
          cases hfs : findSub cs p with
          | none => rw [hfs] at h2; simp at h2
          | some k => simp [hfs]

/-- Containment is preserved by appending on the right. -/
theorem containsSub_append_left {a p : List Char} (b : List Char)
    (h : containsSub a p = true) : containsSub (a ++ b) p = true := by
  rw [containsSub_iff] at h ⊢
  obtain ⟨l, r, rfl⟩ := h
  exact ⟨l, r ++ b, by simp⟩

/-- Containment is preserved by appending on the left. -/
theorem containsSub_append_right (a : List Char) {b p : List Char}
    (h : containsSub b p = true) : containsSub (a ++ b) p = true := by
  rw [containsSub_iff] at h ⊢
  obtain ⟨l, r, rfl⟩ := h
  exact ⟨a ++ l, r, by simp⟩

/-- Dropping one final character not occurring in a nonempty pattern keeps
containment. -/
theorem containsSub_of_append_singleton {x p : List Char} {c : Char}
    (hne : p ≠ []) (hc : c ∉ p) (h : containsSub (x ++ [c]) p = true) :
    containsSub x p = true := by
  rw [containsSub_iff] at h ⊢
  obtain ⟨l, r, hlr⟩ := h
  rcases List.eq_nil_or_concat r with rfl | ⟨r', d, rfl⟩
  · exfalso
    apply hc
    have hp : p = p.dropLast ++ [p.getLast hne] := (List.dropLast_append_getLast hne).symm
    rw [hp] at hlr
    simp only [List.append_nil, ← List.append_assoc] at hlr
    have h2 := List.append_inj' hlr (by simp)
    have hcl : c = p.getLast hne := by simpa using h2.2
    rw [hcl]
    exact List.getLast_mem hne
  · rw [List.concat_eq_append] at hlr
    simp only [← List.append_assoc] at hlr
    have h2 := List.append_inj' hlr (by simp)
    exact ⟨l, r', by simpa using h2.1⟩

/-- `trim_end_matches(',')` of a list ending in a comma. -/
theorem dropTrailingCommas_concat_comma (y : List Char) :
    dropTrailingCommas (y ++ [',']) = dropTrailingCommas y := by
  simp [dropTrailingCommas, List.dropWhile]

/-- `trim_end_matches(',')` of a list not ending in a comma. -/
theorem dropTrailingCommas_eq_self {x : List Char} (h : x.getLast? ≠ some ',') :
    dropTrailingCommas x = x := by
  rcases List.eq_nil_or_concat x with rfl | ⟨y, d, hyd⟩
  · rfl
  · rw [List.concat_eq_append] at hyd
    subst hyd
    have hd : d ≠ ',' := by
      intro hdc
      exact h (by simp [hdc])
    simp [dropTrailingCommas, List.dropWhile, hd]

/-- `trim_end_matches(',')` keeps containment of comma-free patterns. -/
theorem containsSub_dropTrailingCommas {a p : List Char}
    (hne : p ≠ []) (hc : ',' ∉ p) (h : containsSub a p = true) :
    containsSub (dropTrailingCommas a) p = true := by
  have key : ∀ n (x : List Char), x.length ≤ n → containsSub x p = true →
      containsSub (dropTrailingCommas x) p = true := by
    intro n
    induction n with
    | zero =>
      intro x hx hcx
      have hxe : x = [] := List.length_eq_zero.mp (Nat.le_zero.mp hx)
      subst hxe
      simpa [dropTrailingCommas] using hcx
    | succ n ih =>
      intro x hx hcx
      rcases eq_or_ne x.getLast? (some ',') with hlast | hlast
      · rcases List.eq_nil_or_concat x with rfl | ⟨y, d, hyd⟩
        · simp at hlast
        · rw [List.concat_eq_append] at hyd
          subst hyd
          have hd : d = ',' := by simpa using hlast
          subst hd
          rw [dropTrailingCommas_concat_comma]
          have h2 : containsSub y p = true := containsSub_of_append_singleton hne hc hcx
          have hy : y.length ≤ n := by
            have h3 := hx
            simp only [List.length_append, List.length_cons, List.length_nil] at h3
            omega
          exact ih y hy h2
      · rw [dropTrailingCommas_eq_self hlast]
        exact hcx
  exact key a.length a le_rfl h

/-! ## Claim theorems -/

/-- Claim C5: for every description and example output,
`generate_test_cases_for_exercise` returns exactly three test cases.  When the
lowercased description contains "read input", "read from stdin" or
"input from", the inputs are the distinct values "5", "10", "42", the first
two expected outputs substitute every occurrence of "42" and of "test" by the
input, and the third expects the unmodified example output; otherwise all
three cases have empty input and the identical example output. -/
theorem C5_generate_test_cases_shape (lang : Language') (d o : List Char) :
    ((containsSub (toLowerStr d) (chars "read input") ||
      containsSub (toLowerStr d) (chars "read from stdin") ||
      containsSub (toLowerStr d) (chars "input from")) = true →
      generate_test_cases_for_exercise lang d o =
        [⟨chars "5", replaceAll (replaceAll o (chars "42") (chars "5")) (chars "test") (chars "5")⟩,
         ⟨chars "10", replaceAll (replaceAll o (chars "42") (chars "10")) (chars "test") (chars "10")⟩,
         ⟨chars "42", o⟩] ∧
      chars "5" ≠ chars "10" ∧ chars "5" ≠ chars "42" ∧ chars "10" ≠ chars "42") ∧
    ((containsSub (toLowerStr d) (chars "read input") ||
      containsSub (toLowerStr d) (chars "read from stdin") ||
      containsSub (toLowerStr d) (chars "input from")) = false →
      generate_test_cases_for_exercise lang d o =
        [⟨[], o⟩, ⟨[], o⟩, ⟨[], o⟩]) ∧
    (generate_test_cases_for_exercise lang d o).length = 3 := by
  have A : (containsSub (toLowerStr d) (chars "read input") ||
      containsSub (toLowerStr d) (chars "read from stdin") ||
      containsSub (toLowerStr d) (chars "input from")) = true →
      generate_test_cases_for_exercise lang d o =
        [⟨chars "5", replaceAll (replaceAll o (chars "42") (chars "5")) (chars "test") (chars "5")⟩,
         ⟨chars "10", replaceAll (replaceAll o (chars "42") (chars "10")) (chars "test") (chars "10")⟩,
         ⟨chars "42", o⟩] := by
    intro h
    simp [generate_test_cases_for_exercise, h]
  have B : (containsSub (toLowerStr d) (chars "read input") ||
      containsSub (toLowerStr d) (chars "read from stdin") ||
      containsSub (toLowerStr d) (chars "input from")) = false →
      generate_test_cases_for_exercise lang d o = [⟨[], o⟩, ⟨[], o⟩, ⟨[], o⟩] := by
    intro h
    simp [generate_test_cases_for_exercise, h]
  refine ⟨fun h => ⟨A h, by decide, by decide, by decide⟩, B, ?_⟩
  cases hc : (containsSub (toLowerStr d) (chars "read input") ||
      containsSub (toLowerStr d) (chars "read from stdin") ||
      containsSub (toLowerStr d) (chars "input from")) with
  | true => rw [A hc]; rfl
  | false => rw [B hc]; rfl

/-- Witness for C5: both branches at concrete inputs (the spec's own
examples). -/
theorem C5_generate_test_cases_shape_witness :
    generate_test_cases_for_exercise Language'.Rust
        (chars "Your program should read input from stdin") (chars "Result: 42") =
      [⟨chars "5", chars "Result: 5"⟩, ⟨chars "10", chars "Result: 10"⟩,
       ⟨chars "42", chars "Result: 42"⟩] ∧
    generate_test_cases_for_exercise Language'.Rust (chars "Print a value") (chars "hello") =
      [⟨[], chars "hello"⟩, ⟨[], chars "hello"⟩, ⟨[], chars "hello"⟩] := by
  constructor
  · have h := (C5_generate_test_cases_shape Language'.Rust
      (chars "Your program should read input from stdin") (chars "Result: 42")).1 (by rfl)
    rw [h.1]
    rfl
  · have h := (C5_generate_test_cases_shape Language'.Rust
      (chars "Print a value") (chars "hello")).2.1 (by rfl)
    rw [h]

/-- The loop's running conjunction equals `all` over the per-case results. -/
theorem verifyLoop_eq_all (exec : List Char → Except (List Char) (List Char))
    (tcs : List TestCase) :
    verifyLoop exec tcs = (runAllCases exec tcs).all (fun r => r.passed) := by
  have key : ∀ (l : List TestCase) (b : Bool),
      l.foldl (fun acc tc => acc && (runCase exec tc).passed) b =
        (b && (l.map (runCase exec)).all (fun r => r.passed)) := by
    intro l
    induction l with
    | nil => intro b; simp
    | cons x xs ih => intro b; simp [ih, Bool.and_assoc]
  simpa [verifyLoop, runAllCases] using key tcs true

/-- Claim C6: the verification loop executes every test case (one result per
case, in order, so a failure in one case skips none); a case passes exactly
when execution succeeds and the outputs agree after trimming leading and
trailing whitespace on both sides; and the overall verdict is a pass exactly
when every case passes.  `exec` stands for `Executor::execute` at the fixed
language and solution path. -/
theorem C6_verification_loop (exec : List Char → Except (List Char) (List Char))
    (tcs : List TestCase) :
    (runAllCases exec tcs).length = tcs.length ∧
    (∀ (i : Nat) (h : i < tcs.length),
      (runAllCases exec tcs).get ⟨i, by simpa [runAllCases] using h⟩ =
        runCase exec (tcs.get ⟨i, h⟩)) ∧
    (∀ tc : TestCase, (runCase exec tc).passed = true ↔
      ∃ out, exec tc.input = .ok out ∧ trimBoth out = trimBoth tc.output) ∧
    (verifyLoop exec tcs = true ↔ ∀ r ∈ runAllCases exec tcs, r.passed = true) := by
  refine ⟨by simp [runAllCases], ?_, ?_, ?_⟩
  · intro i h
    simp [runAllCases]
  · intro tc
    cases hx : exec tc.input with
    | ok out =>
      simp only [runCase, hx, compare_output]
      constructor
      · intro h
        exact ⟨out, rfl, by simpa using h⟩
      · rintro ⟨out2, hout, heq⟩
        cases hout
        simpa using heq
    | error e =>
      simp only [runCase, hx]
      constructor
      · intro h
        exact absurd h (by simp)
      · rintro ⟨out2, hout, _⟩
        cases hout
  · rw [verifyLoop_eq_all]
    exact List.all_eq_true

/-- Concrete verification-loop scenario used as C6's witness. -/
def c6exec : List Char → Except (List Char) (List Char) :=
  fun i => if i = chars "1" then .ok (chars "foo\n") else .error (chars "boom")

/-- Concrete test cases used as C6's witness. -/
def c6tcs : List TestCase :=
  [⟨chars "1", chars "foo"⟩, ⟨chars "2", chars "bar"⟩]

/-- Witness for C6: on a run whose second case errors, both cases still have
results, the first passes by trimmed comparison, and the verdict is fail. -/
theorem C6_verification_loop_witness :
    (runAllCases c6exec c6tcs).length = 2 ∧
    (runCase c6exec ⟨chars "1", chars "foo"⟩).passed = true ∧
    verifyLoop c6exec c6tcs = false := by
  refine ⟨?_, ?_, by rfl⟩
  · rw [(C6_verification_loop c6exec c6tcs).1]
    rfl
  · exact ((C6_verification_loop c6exec c6tcs).2.2.1 ⟨chars "1", chars "foo"⟩).mpr
      ⟨chars "foo\n", by rfl, by rfl⟩

/-- Concrete exercise whose first test case has whitespace-only input, used as
C7's counterexample. -/
def c7ex : Exercise :=
  ⟨chars "t", chars "d", [], none, none, [⟨chars " ", chars "X"⟩]⟩

/-- Counterexample to claim C7 as stated: this exercise has absent
`example_input` and a non-empty test-case list whose first input is the blank
string " ", yet the backfill sets `example_input` to `Some ""`, not to `Some`
of the first test case's input. -/
theorem C7_backfill_counterexample :
    blankOpt c7ex.example_input = true ∧
    c7ex.test_cases.head? = some ⟨chars " ", chars "X"⟩ ∧
    (backfill_exercise c7ex).example_input = some [] ∧
    (some ([] : List Char) ≠ some (chars " ")) := by
  refine ⟨by rfl, by rfl, by rfl, by decide⟩

/-- Claim C7, amended: for an exercise with a non-empty test-case list, the
backfill sets an absent-or-blank `example_output` to `Some` of the first test
case's output; it sets an absent-or-blank `example_input` to `Some` of the
first test case's input only when that input has non-blank trim, and to
`Some ""` otherwise. -/
theorem C7_backfill_amended (e : Exercise) (t : TestCase) (ts : List TestCase)
    (hcs : e.test_cases = t :: ts) :
    (blankOpt e.example_output = true →
      (backfill_exercise e).example_output = some t.output) ∧
    (blankOpt e.example_input = true →
      (backfill_exercise e).example_input =
        (if trimBoth t.input = [] then some [] else some t.input)) := by
  obtain ⟨ti, de, hi, ei, eo, tcs0⟩ := e
  simp only at hcs
  subst hcs
  constructor
  · intro h
    simp only at h
    simp only [backfill_exercise, h, List.head?, if_true]
    split
    · split <;> rfl
    · rfl
  · intro h
    simp only at h
    by_cases ho : blankOpt eo = true
    · simp only [backfill_exercise, ho, h, List.head?, if_true]
      by_cases hti : trimBoth t.input = []
      · simp [hti, List.isEmpty_iff]
      · simp [hti, List.isEmpty_iff]
    · rw [Bool.not_eq_true] at ho
      simp only [backfill_exercise, ho, h, List.head?, Bool.false_eq_true, if_false, if_true]
      by_cases hti : trimBoth t.input = []
      · simp [hti, List.isEmpty_iff]
      · simp [hti, List.isEmpty_iff]

/-- Witness for C7 (amended): at a concrete exercise with first test case
("1", "X"), the backfill fills output "X" and input "1". -/
theorem C7_backfill_amended_witness :
    (backfill_exercise ⟨chars "t", chars "d", [], none, none, [⟨chars "1", chars "X"⟩]⟩).example_output
        = some (chars "X") ∧
    (backfill_exercise ⟨chars "t", chars "d", [], none, none, [⟨chars "1", chars "X"⟩]⟩).example_input
        = some (chars "1") := by
  have h := C7_backfill_amended ⟨chars "t", chars "d", [], none, none, [⟨chars "1", chars "X"⟩]⟩
    ⟨chars "1", chars "X"⟩ [] (by rfl)
  refine ⟨h.1 (by rfl), ?_⟩
  rw [h.2 (by rfl)]
  rfl

/-- Concrete exercise with no test cases and no example output, for C10. -/
def c10ex : Exercise :=
  ⟨chars "t", chars "d", [], none, none, []⟩

/-- Characterization of the backfill's effect on `example_input`. -/
theorem backfill_input_char (e : Exercise) :
    (backfill_exercise e).example_input =
      (if blankOpt e.example_input = true then
        (match e.test_cases.head? with
         | some t => if (trimBoth t.input).isEmpty = true then some [] else some t.input
         | none => some [])
      else e.example_input) := by
  obtain ⟨ti, de, hi, ei, eo, tcs0⟩ := e
  simp only [backfill_exercise]
  cases htc : tcs0.head? with
  | none =>
    split <;> split <;> simp_all
  | some t =>
    split <;> split <;> simp_all <;> split <;> rfl

/-- Characterization of the backfill's effect on `example_output`. -/
theorem backfill_output_char (e : Exercise) :
    (backfill_exercise e).example_output =
      (if blankOpt e.example_output = true then
        (match e.test_cases.head? with
         | some t => some t.output
         | none => e.example_output)
      else e.example_output) := by
  obtain ⟨ti, de, hi, ei, eo, tcs0⟩ := e
  simp only [backfill_exercise]
  cases htc : tcs0.head? with
  | none =>
    split <;> split <;> simp_all
  | some t =>
    split <;> split <;> simp_all <;> split <;> rfl

/-- Claim C10: after the backfill, `example_input` is always `Some`; when the
test-case list is empty, or its first input has blank trim, a blank
`example_input` becomes `Some ""`; `example_output`, by contrast, is left
unchanged when there are no test cases, so it can remain `None` — the
treatment of the two fields is not symmetric in the empty-test-case case. -/
theorem C10_backfill_input_total (e : Exercise) :
    ((backfill_exercise e).example_input).isSome = true ∧
    (e.test_cases = [] → blankOpt e.example_input = true →
      (backfill_exercise e).example_input = some []) ∧
    (∀ t ts, e.test_cases = t :: ts → blankOpt e.example_input = true →
      trimBoth t.input = [] → (backfill_exercise e).example_input = some []) ∧
    (e.test_cases = [] → (backfill_exercise e).example_output = e.example_output) ∧
    (backfill_exercise c10ex).example_output = none := by
  refine ⟨?_, ?_, ?_, ?_, by rfl⟩
  · rw [backfill_input_char]
    by_cases h : blankOpt e.example_input = true
    · rw [if_pos h]
      rcases htc : e.test_cases.head? with _ | t
      · rfl
      · dsimp only
        split <;> rfl
    · rw [if_neg h]
      cases hei : e.example_input with
      | none =>
        rw [hei] at h
        exact absurd rfl h
      | some s => rfl
  · intro hcs h
    rw [backfill_input_char]
    simp [hcs, h]
  · intro t ts hcs h hti
    rw [backfill_input_char]
    simp [hcs, h, hti]
  · intro hcs
    rw [backfill_output_char]
    split <;> simp [hcs]

/-- Witness for C10: at a concrete exercise with a blank-input test case, the
backfill yields `Some ""` for the input while the no-test-case exercise keeps
`example_output = None`. -/
theorem C10_backfill_input_total_witness :
    ((backfill_exercise ⟨chars "t", chars "d", [], none, none,
        [⟨chars " ", chars "X"⟩]⟩).example_input).isSome = true ∧
    (backfill_exercise c10ex).example_input = some [] ∧
    (backfill_exercise c10ex).example_output = none := by
  refine ⟨(C10_backfill_input_total _).1, ?_, (C10_backfill_input_total c10ex).2.2.2.2⟩
  exact (C10_backfill_input_total c10ex).2.1 (by rfl) (by rfl)

/-- Claim C8: when the solution file does not exist, each of the three
runners returns the missing-file error having performed exactly the existence
check — no subprocess is spawned and the file system is not touched beyond
that check. -/
theorem C8_missing_file (renv : RustEnv) (cenv : CppEnv) (jenv : JsEnv)
    (p : List Char) (i : Option (List Char)) :
    (renv.file_exists = false →
      rust_execute renv p i =
        (.error (chars "Exercise file not found: " ++ p), [.checkExists p]) ∧
      ∀ cmd, Eff.spawn cmd ∉ (rust_execute renv p i).2) ∧
    (cenv.file_exists = false →
      cpp_execute cenv p i =
        (.error (chars "Exercise file not found: " ++ p), [.checkExists p]) ∧
      ∀ cmd, Eff.spawn cmd ∉ (cpp_execute cenv p i).2) ∧
    (jenv.file_exists = false →
      js_execute jenv p i =
        (.error (chars "Exercise file not found: " ++ p), [.checkExists p]) ∧
      ∀ cmd, Eff.spawn cmd ∉ (js_execute jenv p i).2) := by
  refine ⟨fun h => ⟨?_, ?_⟩, fun h => ⟨?_, ?_⟩, fun h => ⟨?_, ?_⟩⟩ <;>
    simp [rust_execute, cpp_execute, js_execute, h]

/-- A fully failing-free Rust environment whose process wait succeeds, used in
witnesses. -/
def c8renv : RustEnv :=
  ⟨false, some [], false, true, true, true, true, true, true, true, true, [], []⟩

/-- Missing-file C++ environment for the witness. -/
def c8cenv : CppEnv := ⟨false, true, true, [], true, true, true, true, [], []⟩

/-- Missing-file JavaScript environment for the witness. -/
def c8jenv : JsEnv := ⟨false, true, true, true, true, [], []⟩

/-- Witness for C8: the three runners at a concrete missing file. -/
theorem C8_missing_file_witness :
    rust_execute c8renv (chars "sol.rs") none =
      (.error (chars "Exercise file not found: sol.rs"), [.checkExists (chars "sol.rs")]) ∧
    cpp_execute c8cenv (chars "sol.cpp") none =
      (.error (chars "Exercise file not found: sol.cpp"), [.checkExists (chars "sol.cpp")]) ∧
    js_execute c8jenv (chars "sol.js") none =
      (.error (chars "Exercise file not found: sol.js"), [.checkExists (chars "sol.js")]) := by
  refine ⟨?_, ?_, ?_⟩
  · rw [((C8_missing_file c8renv c8cenv c8jenv (chars "sol.rs") none).1 (by rfl)).1]
    rfl
  · rw [((C8_missing_file c8renv c8cenv c8jenv (chars "sol.cpp") none).2.1 (by rfl)).1]
    rfl
  · rw [((C8_missing_file c8renv c8cenv c8jenv (chars "sol.js") none).2.2 (by rfl)).1]
    rfl

/-- Rust environment whose `cargo` spawn fails, for C9's counterexample. -/
def c9renv : RustEnv :=
  ⟨true, some (chars "fn main() \x7b\x7d"), false, true, true, true, true, false, true, true, true, [], []⟩

/-- C++ environment whose compiled-program spawn fails, for C9's
counterexample. -/
def c9cenv : CppEnv := ⟨true, true, true, [], false, true, true, true, [], []⟩

/-- Counterexample to claim C9 as stated: when spawning the process fails
(an intermediate error path), the Rust runner has created its ephemeral Cargo
project directory but exits without removing it, and the C++ runner exits
without removing the compiled artifact. -/
theorem C9_cleanup_counterexample :
    ((rust_execute c9renv (chars "sol.rs") none).2.count
        (Eff.removeDirAll (cargo_project_dir (chars "sol.rs"))) = 0) ∧
    (Eff.createDirAll (cargo_project_dir (chars "sol.rs")) ∈
        (rust_execute c9renv (chars "sol.rs") none).2) ∧
    ((rust_execute c9renv (chars "sol.rs") none).1 =
        .error (chars "Failed to execute cargo run")) ∧
    ((cpp_execute c9cenv (chars "sol.cpp") none).2.count
        (Eff.removeFile (exe_path (chars "sol.cpp"))) = 0) ∧
    ((cpp_execute c9cenv (chars "sol.cpp") none).1 =
        .error (chars "Failed to execute compiled program")) := by
  refine ⟨by rfl, by decide, by rfl, by rfl, by rfl⟩

/-- Claim C9, amended: the Rust runner removes a pre-existing directory at the
ephemeral path before use whenever setup reaches the project synthesis, and
deletes the ephemeral directory on every exit path on which the process wait
succeeds — build failure, runtime failure or success alike; the C++ runner
deletes the compiled artifact on every such path; but the early error paths
(project-file writes, spawn, stdin, wait) return without cleanup. -/
theorem C9_cleanup_amended (renv : RustEnv) (cenv : CppEnv)
    (p : List Char) (i : Option (List Char)) :
    (renv.file_exists = true → renv.read_result.isSome = true →
     renv.create_dir_ok = true → renv.write_toml_ok = true →
     renv.create_src_ok = true → renv.write_main_ok = true →
     renv.spawn_ok = true → (i.isSome && !renv.stdin_ok) = false →
     renv.wait_ok = true →
      Eff.removeDirAll (cargo_project_dir p) ∈ (rust_execute renv p i).2) ∧
    (renv.file_exists = true → renv.read_result.isSome = true →
     renv.dir_exists = true →
      Eff.removeDirAll (cargo_project_dir p) ∈ (rust_execute renv p i).2) ∧
    (cenv.file_exists = true → cenv.compile_invoke_ok = true →
     cenv.compile_success = true → cenv.spawn_ok = true →
     (i.isSome && !cenv.stdin_ok) = false → cenv.wait_ok = true →
      Eff.removeFile (exe_path p) ∈ (cpp_execute cenv p i).2) := by
  refine ⟨?_, ?_, ?_⟩
  · intro h1 h2 h3 h4 h5 h6 h7 h8 h9
    obtain ⟨code, hc⟩ := Option.isSome_iff_exists.mp h2
    simp only [rust_execute, h1, h3, h4, h5, h6, h7, h8, h9, hc, Bool.not_true,
      Bool.false_eq_true, if_false, if_true]
    cases renv.status_success <;> simp
  · intro h1 h2 h3
    obtain ⟨code, hc⟩ := Option.isSome_iff_exists.mp h2
    simp only [rust_execute, h1, h3, hc]
    by_cases h4 : renv.create_dir_ok = true
    · simp only [h4]
      by_cases h5 : renv.write_toml_ok = true
      · simp only [h5]
        by_cases h6 : renv.create_src_ok = true
        · simp only [h6]
          by_cases h7 : renv.write_main_ok = true
          · simp only [h7]
            by_cases h8 : renv.spawn_ok = true
            · simp only [h8]
              by_cases h9 : (i.isSome && !renv.stdin_ok) = true
              · simp [h9]
              · rw [Bool.not_eq_true] at h9
                simp only [h9]
                by_cases h10 : renv.wait_ok = true
                · simp only [h10]
                  cases renv.status_success <;> simp
                · simp_all
            · simp_all
          · simp_all
        · simp_all
      · simp_all
    · simp_all
  · intro h1 h2 h3 h4 h5 h6
    simp only [cpp_execute, h1, h2, h3, h4, h5, h6, Bool.not_true,
      Bool.false_eq_true, if_false, if_true]
    cases cenv.run_success <;> simp

/-- Successful and build-failing Rust environments for C9's witness. -/
def c9renv2 : RustEnv :=
  ⟨true, some (chars "fn main() \x7b\x7d"), true, true, true, true, true, true, true, true, false, [], chars "error"⟩

/-- Post-compile C++ environment with failing run status for C9's witness. -/
def c9cenv2 : CppEnv := ⟨true, true, true, [], true, true, true, false, [], chars "boom"⟩

/-- Witness for C9 (amended): on a run whose `cargo run` exits non-zero
(build or runtime failure) the ephemeral directory is removed, both before
use (it pre-existed) and afterwards; the C++ runner removes the artifact on a
failing run. -/
theorem C9_cleanup_amended_witness :
    (Eff.removeDirAll (cargo_project_dir (chars "sol.rs")) ∈
      (rust_execute c9renv2 (chars "sol.rs") none).2) ∧
    (Eff.removeFile (exe_path (chars "sol.cpp")) ∈
      (cpp_execute c9cenv2 (chars "sol.cpp") none).2) := by
  refine ⟨(C9_cleanup_amended c9renv2 c9cenv2 (chars "sol.rs") none).1
      (by rfl) (by rfl) (by rfl) (by rfl) (by rfl) (by rfl) (by rfl) (by rfl) (by rfl),
    (C9_cleanup_amended c9renv2 c9cenv2 (chars "sol.cpp") none).2.2
      (by rfl) (by rfl) (by rfl) (by rfl) (by rfl) (by rfl)⟩

/-- Raw text of C1's counterexample: a well-formed JSON object whose only
absent fields are optional top-level fields and fields of an exercise entry. -/
def c1raw : List Char :=
  chars "\x7b\"concept\":\"c\",\"exercises\":[\x7b\"title\":\"t\",\"description\":\"d\"\x7d]\x7d"

/-- Counterexample to claim C1 as stated: this otherwise well-formed object
only lacks optional top-level fields and fields of its one exercise entry
(`hints`, `test_cases`, `example_input`, `example_output`), yet
`GeneratedContent::from_json` fails, because serde requires `hints` and
`test_cases` of an `Exercise` (they carry no default). -/
theorem C1_from_json_counterexample :
    (parseJsonStr c1raw).isSome = true ∧
    GeneratedContent.from_json c1raw = none := by
  exact ⟨by rfl, by rfl⟩

/-- Claim C1, amended: parsing never fails solely because the defaulted
top-level fields (step_by_step, code_examples, syntax_guide, common_patterns,
exercises) are absent, nor because an exercise entry's `example_input` or
`example_output` is absent — those default to empty text, empty sequence or
`None` — but an exercise entry missing `title`, `description`, `hints` or
`test_cases` does make the parse fail. -/
theorem C1_from_json_defaults_amended :
    (∀ c : List Char,
      decodeGC (Json.obj (JObj.cons (chars "concept") (Json.str c) JObj.nil)) =
        some ⟨c, [], [], [], [], []⟩) ∧
    (∀ t d : List Char,
      decodeExercise (Json.obj (JObj.cons (chars "title") (Json.str t)
        (JObj.cons (chars "description") (Json.str d)
        (JObj.cons (chars "hints") (Json.arr JArr.nil)
        (JObj.cons (chars "test_cases") (Json.arr JArr.nil) JObj.nil))))) =
        some ⟨t, d, [], none, none, []⟩) ∧
    (∀ t d : List Char,
      decodeExercise (Json.obj (JObj.cons (chars "title") (Json.str t)
        (JObj.cons (chars "description") (Json.str d) JObj.nil))) = none) ∧
    (∀ (s : List Char) (v : Json), parseJsonStr s = some v →
      GeneratedContent.from_json s = decodeGC v) := by
  refine ⟨fun c => by rfl, fun t d => by rfl, fun t d => by rfl, fun s v h => ?_⟩
  unfold GeneratedContent.from_json
  rw [h]
  rfl

/-- Witness for C1 (amended): a concrete raw text with only `concept` present
parses with every other field defaulted, via `from_json` itself. -/
theorem C1_from_json_defaults_amended_witness :
    GeneratedContent.from_json (chars "\x7b\"concept\":\"c\"\x7d") =
      some ⟨chars "c", [], [], [], [], []⟩ := by
  have h := C1_from_json_defaults_amended.2.2.2 (chars "\x7b\"concept\":\"c\"\x7d")
    (Json.obj (JObj.cons (chars "concept") (Json.str (chars "c")) JObj.nil)) (by rfl)
  rw [h]
  exact C1_from_json_defaults_amended.1 (chars "c")

/-- Two padding iterations always reach the example floor. -/
theorem padExamples_two_ge (topic : List Char) (lang : Language')
    (xs : List CodeExample) : 2 ≤ (padExamples 2 topic lang xs).length := by
  rcases xs with _ | ⟨a, _ | ⟨b, rest⟩⟩
  · simp [padExamples]
  · simp [padExamples]
  · have h : ¬ (rest.length + 1 + 1 < 2) := by omega
    simp [padExamples, h]

/-- Generated test cases are never empty (both branches produce three). -/
theorem generate_test_cases_ne_nil (l : Language') (d o : List Char) :
    (generate_test_cases_for_exercise l d o).isEmpty = false := by
  simp only [generate_test_cases_for_exercise]
  split <;> rfl

/-- The fallback exercise always carries generated (hence non-empty) test
cases. -/
theorem fallback_exercise_tests_ne_nil (l : Language') (topic : List Char) :
    (create_fallback_exercise_with_tests l topic).test_cases.isEmpty = false := by
  simp only [create_fallback_exercise_with_tests]
  exact generate_test_cases_ne_nil l _ _

/-- Claim C4: every content object leaving the generator's post-processing —
whether the content was parsed, repaired or synthesized, since every path of
`Generator::generate` ends in this block — has at least two code examples, at
least one exercise, and only exercises with at least one test case. -/
theorem C4_content_floors (lang : Language') (topic : List Char)
    (content : GeneratedContent) :
    2 ≤ (ensure_content_minimums lang topic content).code_examples.length ∧
    1 ≤ (ensure_content_minimums lang topic content).exercises.length ∧
    (ensure_content_minimums lang topic content).exercises.all
      (fun e => !e.test_cases.isEmpty) = true := by
  refine ⟨?_, ?_, ?_⟩
  · show 2 ≤ (ensureExamples lang topic content.code_examples).length
    unfold ensureExamples
    split
    · exact padExamples_two_ge topic lang _
    · omega
  · show 1 ≤ (ensureExercises lang topic content.exercises).length
    unfold ensureExercises
    split
    · simp
    · rename_i h
      simp only [List.length_map]
      rcases hcs : content.exercises with _ | ⟨e, es⟩
      · rw [hcs] at h
        simp at h
      · simp
  · show (ensureExercises lang topic content.exercises).all
      (fun e => !e.test_cases.isEmpty) = true
    unfold ensureExercises
    split
    · simp [fallback_exercise_tests_ne_nil]
    · rw [List.all_eq_true]
      intro r hr
      rw [List.mem_map] at hr
      obtain ⟨e, _, rfl⟩ := hr
      by_cases hte : e.test_cases.isEmpty = true
      · simp only [hte, if_true]
        simp [generate_test_cases_ne_nil]
      · simp only [Bool.not_eq_true] at hte
        simp [hte]

/-- Witness content for C4: no examples, one exercise with no test cases. -/
def c4content : GeneratedContent :=
  ⟨chars "c", [], [], [], [], [⟨chars "t", chars "d", [], none, none, []⟩]⟩

/-- Witness for C4 at concrete content violating both floors on entry. -/
theorem C4_content_floors_witness :
    2 ≤ (ensure_content_minimums Language'.Rust (chars "topic") c4content).code_examples.length ∧
    1 ≤ (ensure_content_minimums Language'.Rust (chars "topic") c4content).exercises.length ∧
    (ensure_content_minimums Language'.Rust (chars "topic") c4content).exercises.all
      (fun e => !e.test_cases.isEmpty) = true :=
  C4_content_floors Language'.Rust (chars "topic") c4content

/-- Every span the scan loop returns early was parse-checked. -/
theorem teiLoop_inl_parses (l : List Char) :
    ∀ (pos : Nat) (acc : List Char) (st : TSt) (j : List Char),
      teiLoop l pos acc st = Sum.inl j → (parseJsonStr j).isSome = true := by
  induction l with
  | nil =>
    intro pos acc st j h
    unfold teiLoop at h
    exact Sum.noConfusion h
  | cons c rest ih =>
    intro pos acc st j h
    unfold teiLoop at h
    by_cases h1 : st.esc = true
    · rw [if_pos h1] at h
      exact ih _ _ _ _ h
    · rw [if_neg h1] at h
      by_cases h2 : c = '\\'
      · rw [if_pos h2] at h
        exact ih _ _ _ _ h
      · rw [if_neg h2] at h
        by_cases h3 : c = '"'
        · rw [if_pos h3] at h
          exact ih _ _ _ _ h
        · rw [if_neg h3] at h
          by_cases h4 : c = lbrace ∧ (!st.inStr) = true
          · rw [if_pos h4] at h
            exact ih _ _ _ _ h
          · rw [if_neg h4] at h
            by_cases h5 : c = rbrace ∧ (!st.inStr) = true
            · rw [if_pos h5] at h
              by_cases h5a : st.bc - 1 = 0 ∧ (parseJsonStr (trimBoth (acc ++ [c]))).isSome = true
              · rw [if_pos h5a] at h
                cases h
                exact h5a.2
              · rw [if_neg h5a] at h
                exact ih _ _ _ _ h
            · rw [if_neg h5] at h
              by_cases h6 : c = '[' ∧ (!st.inStr) = true
              · rw [if_pos h6] at h
                exact ih _ _ _ _ h
              · rw [if_neg h6] at h
                by_cases h7 : c = ']' ∧ (!st.inStr) = true
                · rw [if_pos h7] at h
                  exact ih _ _ _ _ h
                · rw [if_neg h7] at h
                  by_cases h8 : c = ':' ∧ (!st.inStr) = true
                  · rw [if_pos h8] at h
                    exact ih _ _ _ _ h
                  · rw [if_neg h8] at h
                    by_cases h9 : (!st.inStr) = true ∧ (c = ' ' ∨ c = '\n' ∨ c = '\t')
                    · rw [if_pos h9] at h
                      exact ih _ _ _ _ h
                    · rw [if_neg h9] at h
                      by_cases h10 : st.inStr = true
                      · rw [if_pos h10] at h
                        exact ih _ _ _ _ h
                      · rw [if_neg h10] at h
                        exact ih _ _ _ _ h

/-- Every span the last-resort reconstruction returns was parse-checked. -/
theorem aggressiveFix_parses (j s : List Char) :
    aggressiveFix j = some s → (parseJsonStr s).isSome = true := by
  intro h
  unfold aggressiveFix at h
  split at h
  · exact Option.noConfusion h
  · split at h
    · exact Option.noConfusion h
    · split at h
      · exact Option.noConfusion h
      · dsimp only at h
        split at h
        · rename_i hcond
          cases h
          exact hcond
        · exact Option.noConfusion h

/-- Every span the repair finish returns was parse-checked. -/
theorem teiFinish_parses (j3 s : List Char) :
    teiFinish j3 = some s → (parseJsonStr s).isSome = true := by
  intro h
  unfold teiFinish at h
  split at h
  · rename_i hc
    cases h
    exact hc
  · exact aggressiveFix_parses _ _ h

/-- Containment is preserved by an optional right-append. -/
theorem containsSub_ite_append {x p : List Char} (c : Prop) [Decidable c]
    (y : List Char) (h : containsSub x p = true) :
    containsSub (if c then x ++ y else x) p = true := by
  split
  · exact containsSub_append_left _ h
  · exact h

/-- After the brace-closing stage, the three injected field names all occur in
the repaired span, whether they were already present or were injected. -/
theorem injectFields_contains (n : Nat) (j : List Char) :
    containsSub (closeBraces n (injectFields j)) sgPat = true ∧
    containsSub (closeBraces n (injectFields j)) cpPat = true ∧
    containsSub (closeBraces n (injectFields j)) exPat = true := by
  have pres : ∀ pat : List Char, pat ≠ [] → ',' ∉ pat → containsSub j pat = true →
      containsSub (if !endsWithChar (dropTrailingCommas j) lbrace &&
          !endsWithChar (dropTrailingCommas j) '[' then
        dropTrailingCommas j ++ [','] else dropTrailingCommas j) pat = true := by
    intro pat h1 h2 h3
    exact containsSub_ite_append _ _ (containsSub_dropTrailingCommas h1 h2 h3)
  have base : containsSub (injectFields j) sgPat = true ∧
      containsSub (injectFields j) cpPat = true ∧
      containsSub (injectFields j) exPat = true := by
    unfold injectFields
    dsimp only
    set j1 := dropTrailingCommas j with hj1
    set j2 := (if !endsWithChar j1 lbrace && !endsWithChar j1 '[' then j1 ++ [','] else j1)
      with hj2
    set j3 := (if (!containsSub j sgPat) && !containsSub j2 sgPat then j2 ++ sgLit else j2)
      with hj3
    set j4 := (if (!containsSub j cpPat) && !containsSub j3 cpPat then j3 ++ cpLit else j3)
      with hj4
    set j5 := (if (!containsSub j exPat) && !containsSub j4 exPat then j4 ++ exLit else j4)
      with hj5
    have hsg3 : containsSub j3 sgPat = true := by
      by_cases hre : containsSub j2 sgPat = true
      · rw [hj3]
        exact containsSub_ite_append _ _ hre
      · have hsg0 : containsSub j sgPat = false := by
          cases hv : containsSub j sgPat with
          | false => rfl
          | true => exact absurd (pres sgPat (by decide) (by decide) hv) hre
        rw [hj3, if_pos (by simp [hsg0, hre])]
        exact containsSub_append_right _ (by decide)
    have hcp4 : containsSub j4 cpPat = true := by
      by_cases hre : containsSub j3 cpPat = true
      · rw [hj4]
        exact containsSub_ite_append _ _ hre
      · have hcp0 : containsSub j cpPat = false := by
          cases hv : containsSub j cpPat with
          | false => rfl
          | true =>
            have h2 : containsSub j2 cpPat = true := pres cpPat (by decide) (by decide) hv
            have h3 : containsSub j3 cpPat = true := by
              rw [hj3]
              exact containsSub_ite_append _ _ h2
            exact absurd h3 hre
        rw [hj4, if_pos (by simp [hcp0, hre])]
        exact containsSub_append_right _ (by decide)
    have hex5 : containsSub j5 exPat = true := by
      by_cases hre : containsSub j4 exPat = true
      · rw [hj5]
        exact containsSub_ite_append _ _ hre
      · have hex0 : containsSub j exPat = false := by
          cases hv : containsSub j exPat with
          | false => rfl
          | true =>
            have h2 : containsSub j2 exPat = true := pres exPat (by decide) (by decide) hv
            have h3 : containsSub j3 exPat = true := by
              rw [hj3]
              exact containsSub_ite_append _ _ h2
            have h4 : containsSub j4 exPat = true := by
              rw [hj4]
              exact containsSub_ite_append _ _ h3
            exact absurd h4 hre
        rw [hj5, if_pos (by simp [hex0, hre])]
        exact containsSub_append_right _ (by decide)
    have hsg5 : containsSub j5 sgPat = true := by
      rw [hj5]
      refine containsSub_ite_append _ _ ?_
      rw [hj4]
      exact containsSub_ite_append _ _ hsg3
    have hcp5 : containsSub j5 cpPat = true := by
      rw [hj5]
      exact containsSub_ite_append _ _ hcp4
    split
    · exact ⟨hsg5, hcp5, hex5⟩
    · rename_i hguard
      have hand : containsSub j exPat = true ∧ containsSub j cpPat = true ∧
          containsSub j sgPat = true := by
        constructor
        · cases hv : containsSub j exPat with
          | true => rfl
          | false => exact absurd (by simp [hv]) hguard
        constructor
        · cases hv : containsSub j cpPat with
          | true => rfl
          | false => exact absurd (by simp [hv]) hguard
        · cases hv : containsSub j sgPat with
          | true => rfl
          | false => exact absurd (by simp [hv]) hguard
      exact ⟨containsSub_dropTrailingCommas (by decide) (by decide) hand.2.2,
             containsSub_dropTrailingCommas (by decide) (by decide) hand.2.1,
             containsSub_dropTrailingCommas (by decide) (by decide) hand.1⟩
  exact ⟨containsSub_append_left _ base.1, containsSub_append_left _ base.2.1,
         containsSub_append_left _ base.2.2⟩

/-- Claim C2, amended: the structural repair injects each of `syntax_guide`,
`common_patterns` and `exercises` that is absent before appending the closing
braces, so any span produced by the brace-closing stage contains all three
field names; and `try_extract_incomplete_json` returns a repaired span only
when that span parses as JSON — when no repair parses (as can happen even
with an unmatched open object), it returns nothing instead. -/
theorem C2_repair_injection_amended :
    (∀ t s, try_extract_incomplete_json t = some s → (parseJsonStr s).isSome = true) ∧
    (∀ (bc : Nat) (j : List Char),
      containsSub (closeBraces bc (injectFields j)) sgPat = true ∧
      containsSub (closeBraces bc (injectFields j)) cpPat = true ∧
      containsSub (closeBraces bc (injectFields j)) exPat = true) := by
  refine ⟨?_, injectFields_contains⟩
  intro t s h
  unfold try_extract_incomplete_json at h
  split at h
  · exact Option.noConfusion h
  · split at h
    · rename_i heq
      cases h
      exact teiLoop_inl_parses _ _ _ _ _ heq
    · split at h
      · unfold teiRepair teiBrackets teiClose at h
        exact teiFinish_parses _ _ h
      · exact Option.noConfusion h

/-- Counterexample to claim C2 as stated: on the span `{"a":` the scan ends
with one unmatched open object, the repair injects the three fields, but the
repaired span (`{"a":, "syntax_guide": ...}`) does not parse, so
`try_extract_incomplete_json` returns nothing — the claim's "the resulting
repaired span parses as a JSON object" fails. -/
theorem C2_repair_injection_counterexample :
    teiLoop ((chars "\x7b\"a\":").drop 0) 0 [] ⟨0, 0, false, false, 0, false⟩ =
      .inr ⟨1, 0, false, false, 4, true⟩ ∧
    ((1 : Int) > 0) ∧
    try_extract_incomplete_json (chars "\x7b\"a\":") = none := by
  refine ⟨by rfl, by decide, ?_⟩
  rw [try_extract_incomplete_json]
  rw [show findChar (chars "\x7b\"a\":") lbrace = some 0 from rfl]
  dsimp only
  rw [show teiLoop ((chars "\x7b\"a\":").drop 0) 0 [] ⟨0, 0, false, false, 0, false⟩ =
      .inr ⟨1, 0, false, false, 4, true⟩ from rfl]
  dsimp only
  rw [if_pos (by decide)]
  rw [show teiRepair (chars "\x7b\"a\":") 0 ⟨1, 0, false, false, 4, true⟩ =
      teiBrackets ⟨1, 0, false, false, 4, true⟩ (chars "\x7b\"a\":") from rfl]
  rw [show teiBrackets ⟨1, 0, false, false, 4, true⟩ (chars "\x7b\"a\":") =
      teiClose 1 (chars "\x7b\"a\":") from rfl]
  rw [show teiClose 1 (chars "\x7b\"a\":") =
      teiFinish (chars "\x7b\"a\":, \"syntax_guide\": \"\", \"common_patterns\": [], \"exercises\": []\x7d") from rfl]
  rw [show teiFinish (chars "\x7b\"a\":, \"syntax_guide\": \"\", \"common_patterns\": [], \"exercises\": []\x7d") = none from rfl]

/-- Witness for C2 (amended): on the truncated span `{"concept": "c"` the
repair injects all three fields, the repaired span parses, and the parse
guarantee of the amended claim applies to it. -/
theorem C2_repair_injection_amended_witness :
    try_extract_incomplete_json (chars "\x7b\"concept\": \"c\"") =
      some (chars "\x7b\"concept\": \"c\", \"syntax_guide\": \"\", \"common_patterns\": [], \"exercises\": []\x7d") ∧
    (parseJsonStr (chars "\x7b\"concept\": \"c\", \"syntax_guide\": \"\", \"common_patterns\": [], \"exercises\": []\x7d")).isSome = true ∧
    containsSub (chars "\x7b\"concept\": \"c\", \"syntax_guide\": \"\", \"common_patterns\": [], \"exercises\": []\x7d") sgPat = true ∧
    containsSub (chars "\x7b\"concept\": \"c\", \"syntax_guide\": \"\", \"common_patterns\": [], \"exercises\": []\x7d") cpPat = true ∧
    containsSub (chars "\x7b\"concept\": \"c\", \"syntax_guide\": \"\", \"common_patterns\": [], \"exercises\": []\x7d") exPat = true := by
  have htei : try_extract_incomplete_json (chars "\x7b\"concept\": \"c\"") =
      some (chars "\x7b\"concept\": \"c\", \"syntax_guide\": \"\", \"common_patterns\": [], \"exercises\": []\x7d") := by
    rw [try_extract_incomplete_json]
    rw [show findChar (chars "\x7b\"concept\": \"c\"") lbrace = some 0 from rfl]
    dsimp only
    rw [show teiLoop ((chars "\x7b\"concept\": \"c\"").drop 0) 0 []
        ⟨0, 0, false, false, 0, false⟩ = .inr ⟨1, 0, false, false, 15, false⟩ from rfl]
    dsimp only
    rw [if_pos (by decide)]
    rw [show teiRepair (chars "\x7b\"concept\": \"c\"") 0 ⟨1, 0, false, false, 15, false⟩ =
        teiBrackets ⟨1, 0, false, false, 15, false⟩ (chars "\x7b\"concept\": \"c\"") from rfl]
    rw [show teiBrackets ⟨1, 0, false, false, 15, false⟩ (chars "\x7b\"concept\": \"c\"") =
        teiClose 1 (chars "\x7b\"concept\": \"c\"") from rfl]
    rw [show teiClose 1 (chars "\x7b\"concept\": \"c\"") =
        teiFinish (chars "\x7b\"concept\": \"c\", \"syntax_guide\": \"\", \"common_patterns\": [], \"exercises\": []\x7d") from rfl]
    rw [show teiFinish (chars "\x7b\"concept\": \"c\", \"syntax_guide\": \"\", \"common_patterns\": [], \"exercises\": []\x7d") =
        some (chars "\x7b\"concept\": \"c\", \"syntax_guide\": \"\", \"common_patterns\": [], \"exercises\": []\x7d") from rfl]
  refine ⟨htei, C2_repair_injection_amended.1 _ _ htei, ?_, ?_, ?_⟩
  · have h := (C2_repair_injection_amended.2 1 (chars "\x7b\"concept\": \"c\"")).1
    rw [show closeBraces 1 (injectFields (chars "\x7b\"concept\": \"c\"")) =
        chars "\x7b\"concept\": \"c\", \"syntax_guide\": \"\", \"common_patterns\": [], \"exercises\": []\x7d" from rfl] at h
    exact h
  · have h := (C2_repair_injection_amended.2 1 (chars "\x7b\"concept\": \"c\"")).2.1
    rw [show closeBraces 1 (injectFields (chars "\x7b\"concept\": \"c\"")) =
        chars "\x7b\"concept\": \"c\", \"syntax_guide\": \"\", \"common_patterns\": [], \"exercises\": []\x7d" from rfl] at h
    exact h
  · have h := (C2_repair_injection_amended.2 1 (chars "\x7b\"concept\": \"c\"")).2.2
    rw [show closeBraces 1 (injectFields (chars "\x7b\"concept\": \"c\"")) =
        chars "\x7b\"concept\": \"c\", \"syntax_guide\": \"\", \"common_patterns\": [], \"exercises\": []\x7d" from rfl] at h
    exact h

/-! ## Round-trip development for C3 (serializer against parser and
`extract_json`, generator.rs lines 508-600, formatter.rs lines 40-44) -/

/-- Characters that survive the modelled escape/unescape round trip (raw
control characters other than the escaped `\n`, `\t`, `\r` are rejected by
`serde_json`), excluding the backtick (code 96), which `extract_json` hunts
for as a fence marker before any parse. -/
def strOk (s : List Char) : Bool :=
  s.all (fun c => (32 ≤ c.toNat || c = '\n' || c = '\t' || c = '\r') && c.toNat ≠ 96)

mutual
/-- Well-formed values: every string (key or value) is `strOk`. -/
def wfV : Json → Bool
  | .null => true
  | .jbool _ => true
  | .num _ => true
  | .str s => strOk s
  | .arr a => wfA a
  | .obj o => wfO o

def wfA : JArr → Bool
  | .nil => true
  | .cons v t => wfV v && wfA t

def wfO : JObj → Bool
  | .nil => true
  | .cons k v t => strOk k && wfV v && wfO t
end

/-- The next character, if any, is not a digit (so a preceding number token
cannot absorb it). -/
def headNotDigit : List Char → Bool
  | [] => true
  | c :: _ => !isDigitCh c

theorem digitToChar_isDigit (n : Nat) : isDigitCh (digitToChar n) = true := by
  unfold digitToChar
  split <;> rfl

theorem digitToChar_toNat (n : Nat) (h : n < 10) : (digitToChar n).toNat = 48 + n := by
  interval_cases n <;> rfl

theorem natToCharsAux_digits (f : Nat) :
    ∀ n c, c ∈ natToCharsAux f n → isDigitCh c = true := by
  induction f with
  | zero => intro n c hc; simp [natToCharsAux] at hc
  | succ f ih =>
    intro n c hc
    unfold natToCharsAux at hc
    split at hc
    · simp at hc; subst hc; exact digitToChar_isDigit n
    · rcases List.mem_append.mp hc with h1 | h1
      · exact ih _ _ h1
      · simp at h1; subst h1; exact digitToChar_isDigit _

theorem natToChars_digits (n : Nat) : ∀ c ∈ natToChars n, isDigitCh c = true :=
  natToCharsAux_digits (n + 1) n

theorem natToChars_ne_nil (n : Nat) : natToChars n ≠ [] := by
  unfold natToChars natToCharsAux
  split <;> simp

theorem digitsToNat_concat (l : List Char) (d : Char) :
    digitsToNat (l ++ [d]) = 10 * digitsToNat l + (d.toNat - 48) := by
  unfold digitsToNat
  rw [List.foldl_append]
  rfl

theorem lt_ten_pow (n : Nat) : n < 10 ^ (n + 1) := by
  induction n with
  | zero => norm_num
  | succ m ih =>
    have h : 10 ^ (m + 1 + 1) = 10 ^ (m + 1) * 10 := pow_succ 10 (m + 1)
    omega

theorem natToCharsAux_val (f : Nat) :
    ∀ n, n < 10 ^ f → digitsToNat (natToCharsAux f n) = n := by
  induction f with
  | zero => intro n hn; interval_cases n; rfl
  | succ f ih =>
    intro n hn
    unfold natToCharsAux
    split
    · rename_i h
      have h1 : digitsToNat [digitToChar n] = 10 * 0 + ((digitToChar n).toNat - 48) := rfl
      have h2 := digitToChar_toNat n h
      omega
    · rename_i h
      have hdiv : n / 10 < 10 ^ f := by
        rw [Nat.div_lt_iff_lt_mul (by norm_num)]
        have : (10:Nat) ^ (f + 1) = 10 ^ f * 10 := pow_succ 10 f
        omega
      rw [digitsToNat_concat, ih (n / 10) hdiv,
        digitToChar_toNat (n % 10) (Nat.mod_lt n (by norm_num))]
      omega

theorem natToChars_val (n : Nat) : digitsToNat (natToChars n) = n :=
  natToCharsAux_val (n + 1) n (lt_ten_pow n)

theorem splitDigits_of_digits (ds : List Char) (rest : List Char)
    (hds : ∀ c ∈ ds, isDigitCh c = true) (hrest : headNotDigit rest = true) :
    splitDigits (ds ++ rest) = (ds, rest) := by
  induction ds with
  | nil =>
    simp only [List.nil_append]
    cases rest with
    | nil => rfl
    | cons c t =>
      have hc : isDigitCh c = false := by
        simpa [headNotDigit] using hrest
      unfold splitDigits
      rw [if_neg (by simp [hc])]
  | cons d ds ih =>
    have hd : isDigitCh d = true := hds d (by simp)
    have htl : ∀ c ∈ ds, isDigitCh c = true := fun c hc => hds c (by simp [hc])
    simp only [List.cons_append]
    unfold splitDigits
    rw [if_pos hd]
    simp only [ih htl]

theorem digit_ne (c : Char) (h : isDigitCh c = true) (x : Char)
    (hx : isDigitCh x = false) : c ≠ x := by
  intro hh
  subst hh
  rw [h] at hx
  exact Bool.noConfusion hx

theorem digit_not_jsonWs (c : Char) (h : isDigitCh c = true) : isJsonWs c = false := by
  by_cases h1 : c = ' '
  · subst h1; exact absurd h (by decide)
  by_cases h2 : c = '\t'
  · subst h2; exact absurd h (by decide)
  by_cases h3 : c = '\n'
  · subst h3; exact absurd h (by decide)
  by_cases h4 : c = '\x0d'
  · subst h4; exact absurd h (by decide)
  simp [isJsonWs, h1, h2, h3, h4]

theorem skipWs_cons (c : Char) (t : List Char) (h : isJsonWs c = false) :
    skipWs (c :: t) = c :: t := by
  simp [skipWs, h]

theorem sizeV_pos (v : Json) : 1 ≤ sizeV v := by
  cases v <;> simp only [sizeV] <;> omega

theorem sizeA_pos (a : JArr) : 1 ≤ sizeA a := by
  cases a <;> simp only [sizeA] <;> omega

theorem sizeO_pos (o : JObj) : 1 ≤ sizeO o := by
  cases o <;> simp only [sizeO] <;> omega

theorem parse_escStr (s : List Char) : ∀ (rest : List Char), strOk s = true →
    parseStrBody (escStr s ++ '"' :: rest) = some (s, rest) := by
  induction s with
  | nil =>
    intro rest _
    simp only [escStr, List.nil_append]
    unfold parseStrBody
    rw [if_pos rfl]
  | cons c t ih =>
    intro rest h
    simp only [strOk, List.all_cons, Bool.and_eq_true] at h
    obtain ⟨hc, ht⟩ := h
    have ht' : strOk t = true := ht
    simp only [Bool.and_eq_true, Bool.or_eq_true, decide_eq_true_eq] at hc
    show parseStrBody ((escCh c ++ escStr t) ++ '"' :: rest) = some (c :: t, rest)
    rw [List.append_assoc]
    unfold escCh
    by_cases h1 : c = '"'
    · subst h1
      rw [if_pos rfl]
      rw [show (['\\', '"'] : List Char) ++ (escStr t ++ '"' :: rest) =
          '\\' :: '"' :: (escStr t ++ '"' :: rest) from rfl]
      rw [show parseStrBody ('\\' :: '"' :: (escStr t ++ '"' :: rest)) =
          (parseStrBody (escStr t ++ '"' :: rest)).map (fun p => ('"' :: p.1, p.2)) from rfl]
      rw [ih rest ht']
      rfl
    rw [if_neg h1]
    by_cases h2 : c = '\\'
    · subst h2
      rw [if_pos rfl]
      rw [show (['\\', '\\'] : List Char) ++ (escStr t ++ '"' :: rest) =
          '\\' :: '\\' :: (escStr t ++ '"' :: rest) from rfl]
      rw [show parseStrBody ('\\' :: '\\' :: (escStr t ++ '"' :: rest)) =
          (parseStrBody (escStr t ++ '"' :: rest)).map (fun p => ('\\' :: p.1, p.2)) from rfl]
      rw [ih rest ht']
      rfl
    rw [if_neg h2]
    by_cases h3 : c = '\n'
    · subst h3
      rw [if_pos rfl]
      rw [show (['\\', 'n'] : List Char) ++ (escStr t ++ '"' :: rest) =
          '\\' :: 'n' :: (escStr t ++ '"' :: rest) from rfl]
      rw [show parseStrBody ('\\' :: 'n' :: (escStr t ++ '"' :: rest)) =
          (parseStrBody (escStr t ++ '"' :: rest)).map (fun p => ('\n' :: p.1, p.2)) from rfl]
      rw [ih rest ht']
      rfl
    rw [if_neg h3]
    by_cases h4 : c = '\t'
    · subst h4
      rw [if_pos rfl]
      rw [show (['\\', 't'] : List Char) ++ (escStr t ++ '"' :: rest) =
          '\\' :: 't' :: (escStr t ++ '"' :: rest) from rfl]
      rw [show parseStrBody ('\\' :: 't' :: (escStr t ++ '"' :: rest)) =
          (parseStrBody (escStr t ++ '"' :: rest)).map (fun p => ('\t' :: p.1, p.2)) from rfl]
      rw [ih rest ht']
      rfl
    rw [if_neg h4]
    by_cases h5 : c = '\r'
    · subst h5
      rw [if_pos rfl]
      rw [show (['\\', 'r'] : List Char) ++ (escStr t ++ '"' :: rest) =
          '\\' :: 'r' :: (escStr t ++ '"' :: rest) from rfl]
      rw [show parseStrBody ('\\' :: 'r' :: (escStr t ++ '"' :: rest)) =
          (parseStrBody (escStr t ++ '"' :: rest)).map (fun p => ('\r' :: p.1, p.2)) from rfl]
      rw [ih rest ht']
      rfl
    rw [if_neg h5]
    have h32 : 32 ≤ c.toNat := by
      rcases hc.1 with ((hx | hx) | hx) | hx
      · exact hx
      · exact absurd hx h3
      · exact absurd hx h4
      · exact absurd hx h5
    rw [show ([c] : List Char) ++ (escStr t ++ '"' :: rest) =
        c :: (escStr t ++ '"' :: rest) from rfl]
    unfold parseStrBody
    rw [if_neg h1, if_neg h2, if_neg (by omega : ¬ c.toNat < 32)]
    rw [ih rest ht']
    rfl

/-- Separator-plus-tail of a non-empty array serialization. -/
def arrSep : JArr → List Char
  | .nil => []
  | .cons y u => ',' :: serArrInner (JArr.cons y u)

/-- Separator-plus-tail of a non-empty object serialization. -/
def objSep : JObj → List Char
  | .nil => []
  | .cons k v u => ',' :: serObjInner (JObj.cons k v u)

theorem serArrInner_cons (x : Json) (t : JArr) :
    serArrInner (JArr.cons x t) = serV x ++ arrSep t := by
  cases t with
  | nil => simp [serArrInner, arrSep]
  | cons y u => rfl

theorem serObjInner_cons (k : List Char) (v : Json) (t : JObj) :
    serObjInner (JObj.cons k v t) = serStr k ++ ':' :: (serV v ++ objSep t) := by
  cases t with
  | nil => simp [serObjInner, objSep]
  | cons k2 v2 u => simp [serObjInner, objSep]

theorem headNotDigit_arrSep (t : JArr) (rest : List Char) :
    headNotDigit (arrSep t ++ ']' :: rest) = true := by
  cases t <;> rfl

theorem headNotDigit_objSep (t : JObj) (rest : List Char) :
    headNotDigit (objSep t ++ rbrace :: rest) = true := by
  cases t <;> rfl

theorem serV_head (v : Json) :
    ∃ c l, serV v = c :: l ∧ isJsonWs c = false ∧ c ≠ ']' ∧ c ≠ rbrace := by
  cases v with
  | null => exact ⟨'n', _, rfl, by decide, by decide, by decide⟩
  | jbool b =>
    cases b with
    | true => refine ⟨'t', _, rfl, ?_, ?_, ?_⟩ <;> decide
    | false => refine ⟨'f', _, rfl, ?_, ?_, ?_⟩ <;> decide
  | num n =>
    show ∃ c l, serNum n = c :: l ∧ _
    unfold serNum
    by_cases hn : n < 0
    · rw [if_pos hn]
      exact ⟨'-', _, rfl, by decide, by decide, by decide⟩
    · rw [if_neg hn]
      obtain ⟨d, ds, hds⟩ : ∃ d ds, natToChars n.toNat = d :: ds := by
        cases h : natToChars n.toNat with
        | nil => exact absurd h (natToChars_ne_nil _)
        | cons d ds => exact ⟨d, ds, rfl⟩
      have hd : isDigitCh d = true := natToChars_digits n.toNat d (by rw [hds]; simp)
      exact ⟨d, ds, hds, digit_not_jsonWs d hd, digit_ne d hd ']' (by decide),
        digit_ne d hd rbrace (by decide)⟩
  | str s => exact ⟨'"', _, rfl, by decide, by decide, by decide⟩
  | arr a => exact ⟨'[', _, rfl, by decide, by decide, by decide⟩
  | obj o => exact ⟨lbrace, _, rfl, by decide, by decide, by decide⟩

theorem parseV_null (f : Nat) (rest : List Char) :
    parseV (f + 1) ('n' :: 'u' :: 'l' :: 'l' :: rest) = some (Json.null, rest) := rfl

theorem parseV_true (f : Nat) (rest : List Char) :
    parseV (f + 1) ('t' :: 'r' :: 'u' :: 'e' :: rest) = some (Json.jbool true, rest) := rfl

theorem parseV_false (f : Nat) (rest : List Char) :
    parseV (f + 1) ('f' :: 'a' :: 'l' :: 's' :: 'e' :: rest) =
      some (Json.jbool false, rest) := rfl

theorem parseV_lbrace (f : Nat) (X : List Char) :
    parseV (f + 1) (lbrace :: X) =
      (parseObjBody f X).map (fun p => (Json.obj p.1, p.2)) := rfl

theorem parseV_lbracket (f : Nat) (X : List Char) :
    parseV (f + 1) ('[' :: X) =
      (parseArrBody f X).map (fun p => (Json.arr p.1, p.2)) := rfl

theorem parseV_quote (f : Nat) (X : List Char) :
    parseV (f + 1) ('"' :: X) =
      (parseStrBody X).map (fun p => (Json.str p.1, p.2)) := rfl

theorem parseV_minus (f : Nat) (X : List Char) :
    parseV (f + 1) ('-' :: X) = (match splitDigits X with
      | ([], _) => none
      | (ds, r) => some (Json.num (-(Int.ofNat (digitsToNat ds))), r)) := rfl

theorem parseV_digitHead (f : Nat) (c : Char) (X : List Char) (h : isDigitCh c = true) :
    parseV (f + 1) (c :: X) = (match splitDigits (c :: X) with
      | (ds, r) => some (Json.num (Int.ofNat (digitsToNat ds)), r)) := by
  unfold parseV
  rw [skipWs_cons c X (digit_not_jsonWs c h)]
  dsimp only
  rw [if_neg (digit_ne c h lbrace (by decide)), if_neg (digit_ne c h '[' (by decide)),
    if_neg (digit_ne c h '"' (by decide)), if_neg (digit_ne c h 'n' (by decide)),
    if_neg (digit_ne c h 't' (by decide)), if_neg (digit_ne c h 'f' (by decide)),
    if_neg (digit_ne c h '-' (by decide)), if_pos h]

theorem parse_serNum (f : Nat) (n : Int) (rest : List Char)
    (hrest : headNotDigit rest = true) :
    parseV (f + 1) (serNum n ++ rest) = some (Json.num n, rest) := by
  unfold serNum
  by_cases hn : n < 0
  · rw [if_pos hn]
    rw [show ('-' :: natToChars n.natAbs) ++ rest = '-' :: (natToChars n.natAbs ++ rest)
      from rfl]
    rw [parseV_minus]
    rw [splitDigits_of_digits _ _ (natToChars_digits _) hrest]
    obtain ⟨d, ds, hds⟩ : ∃ d ds, natToChars n.natAbs = d :: ds := by
      cases h : natToChars n.natAbs with
      | nil => exact absurd h (natToChars_ne_nil _)
      | cons d ds => exact ⟨d, ds, rfl⟩
    rw [hds]
    dsimp only
    rw [← hds, natToChars_val]
    have : -(Int.ofNat n.natAbs) = n := by
      rw [Int.ofNat_eq_natCast]
      omega
    rw [this]
  · rw [if_neg hn]
    obtain ⟨d, ds, hds⟩ : ∃ d ds, natToChars n.toNat = d :: ds := by
      cases h : natToChars n.toNat with
      | nil => exact absurd h (natToChars_ne_nil _)
      | cons d ds => exact ⟨d, ds, rfl⟩
    have hd : isDigitCh d = true := natToChars_digits n.toNat d (by rw [hds]; simp)
    rw [hds, List.cons_append, parseV_digitHead f d _ hd, ← List.cons_append, ← hds]
    rw [splitDigits_of_digits _ _ (natToChars_digits _) hrest]
    dsimp only
    rw [natToChars_val]
    have : Int.ofNat n.toNat = n := by
      rw [Int.ofNat_eq_natCast]
      omega
    rw [this]

theorem parse_serStr (f : Nat) (s rest : List Char) (h : strOk s = true) :
    parseV (f + 1) (serStr s ++ rest) = some (Json.str s, rest) := by
  rw [show serStr s ++ rest = '"' :: (escStr s ++ '"' :: rest) by
    simp [serStr, List.append_assoc]]
  rw [parseV_quote, parse_escStr s rest h]
  rfl

theorem parseArrElems_last (f : Nat) (x : Json) (X rest : List Char)
    (h : parseV f X = some (x, ']' :: rest)) :
    parseArrElems (f + 1) X = some (JArr.cons x JArr.nil, rest) := by
  unfold parseArrElems
  rw [h]
  rfl

theorem parseArrElems_step (f : Nat) (x : Json) (X rest : List Char)
    (h : parseV f X = some (x, ',' :: rest)) :
    parseArrElems (f + 1) X =
      (parseArrElems f rest).map (fun p => (JArr.cons x p.1, p.2)) := by
  conv_lhs => unfold parseArrElems
  rw [h]
  rfl

theorem parseObjBody_quote (f : Nat) (X : List Char) :
    parseObjBody (f + 1) ('"' :: X) = parseObjMems f ('"' :: X) := rfl

theorem parseObjMems_last (f : Nat) (B Y rest : List Char) (k : List Char) (v : Json)
    (hk : parseStrBody B = some (k, ':' :: Y))
    (hv : parseV f Y = some (v, rbrace :: rest)) :
    parseObjMems (f + 1) ('"' :: B) = some (JObj.cons k v JObj.nil, rest) := by
  unfold parseObjMems
  rw [skipWs_cons _ _ (by decide)]
  split
  · rename_i r heq
    injection heq with h1 h2
    subst h2
    rw [hk]
    dsimp only
    rw [skipWs_cons _ _ (by decide)]
    split
    · rename_i r2 heq2
      injection heq2 with h1 h2
      subst h2
      rw [hv]
      dsimp only
      rw [skipWs_cons _ _ (by decide)]
      split
      · rename_i r4 heq4
        injection heq4 with h1 h2
        exact absurd h1 (by decide)
      · rename_i c r4 hne heq4
        injection heq4 with h1 h2
        subst h1
        subst h2
        rw [if_pos rfl]
      · rename_i heq4
        exact List.noConfusion heq4
    · rename_i hno
      exact (hno Y rfl).elim
  · rename_i hno
    exact (hno B rfl).elim

theorem parseObjMems_step (f : Nat) (B Y rest : List Char) (k : List Char) (v : Json)
    (hk : parseStrBody B = some (k, ':' :: Y))
    (hv : parseV f Y = some (v, ',' :: rest)) :
    parseObjMems (f + 1) ('"' :: B) =
      (parseObjMems f rest).map (fun p => (JObj.cons k v p.1, p.2)) := by
  conv_lhs => unfold parseObjMems
  rw [skipWs_cons _ _ (by decide)]
  split
  · rename_i r heq
    injection heq with h1 h2
    subst h2
    rw [hk]
    dsimp only
    rw [skipWs_cons _ _ (by decide)]
    split
    · rename_i r2 heq2
      injection heq2 with h1 h2
      subst h2
      rw [hv]
      dsimp only
      rw [skipWs_cons _ _ (by decide)]
      split
      · rename_i r4 heq4
        injection heq4 with h1 h2
        subst h2
        rfl
      · rename_i c r4 hne heq4
        injection heq4 with h1 h2
        exact (hne h1.symm).elim
      · rename_i heq4
        exact List.noConfusion heq4
    · rename_i hno
      exact (hno Y rfl).elim
  · rename_i hno
    exact (hno B rfl).elim

theorem parse_ser (f : Nat) :
    (∀ (v : Json) (rest : List Char), sizeV v ≤ f → wfV v = true →
      headNotDigit rest = true → parseV f (serV v ++ rest) = some (v, rest)) ∧
    (∀ (a : JArr) (rest : List Char), sizeA a ≤ f → wfA a = true →
      parseArrBody f (serArrInner a ++ ']' :: rest) = some (a, rest)) ∧
    (∀ (x : Json) (t : JArr) (rest : List Char), sizeV x + sizeA t ≤ f →
      wfV x = true → wfA t = true →
      parseArrElems f (serArrInner (JArr.cons x t) ++ ']' :: rest) =
        some (JArr.cons x t, rest)) ∧
    (∀ (o : JObj) (rest : List Char), sizeO o ≤ f → wfO o = true →
      parseObjBody f (serObjInner o ++ rbrace :: rest) = some (o, rest)) ∧
    (∀ (k : List Char) (v : Json) (t : JObj) (rest : List Char), sizeV v + sizeO t ≤ f →
      strOk k = true → wfV v = true → wfO t = true →
      parseObjMems f (serObjInner (JObj.cons k v t) ++ rbrace :: rest) =
        some (JObj.cons k v t, rest)) := by
  induction f with
  | zero =>
    refine ⟨?_, ?_, ?_, ?_, ?_⟩
    · intro v rest hf _ _
      exact absurd hf (by have := sizeV_pos v; omega)
    · intro a rest hf _
      exact absurd hf (by have := sizeA_pos a; omega)
    · intro x t rest hf _ _
      exact absurd hf (by have := sizeV_pos x; have := sizeA_pos t; omega)
    · intro o rest hf _
      exact absurd hf (by have := sizeO_pos o; omega)
    · intro k v t rest hf _ _ _
      exact absurd hf (by have := sizeV_pos v; have := sizeO_pos t; omega)
  | succ f ih =>
    obtain ⟨ihV, ihA, ihAE, ihO, ihOM⟩ := ih
    refine ⟨?_, ?_, ?_, ?_, ?_⟩
    · intro v rest hf hwf hrest
      cases v with
      | null =>
        rw [show serV Json.null ++ rest = 'n' :: 'u' :: 'l' :: 'l' :: rest from rfl]
        exact parseV_null f rest
      | jbool b =>
        cases b with
        | true =>
          rw [show serV (Json.jbool true) ++ rest = 't' :: 'r' :: 'u' :: 'e' :: rest
            from rfl]
          exact parseV_true f rest
        | false =>
          rw [show serV (Json.jbool false) ++ rest = 'f' :: 'a' :: 'l' :: 's' :: 'e' :: rest
            from rfl]
          exact parseV_false f rest
      | num n =>
        rw [show serV (Json.num n) = serNum n from rfl]
        exact parse_serNum f n rest hrest
      | str s =>
        rw [show serV (Json.str s) = serStr s from rfl]
        exact parse_serStr f s rest (by simpa [wfV] using hwf)
      | arr a =>
        rw [show serV (Json.arr a) ++ rest = '[' :: (serArrInner a ++ ']' :: rest) by
          simp [serV]]
        rw [parseV_lbracket]
        rw [ihA a rest (by simp only [sizeV] at hf; omega) (by simpa [wfV] using hwf)]
        rfl
      | obj o =>
        rw [show serV (Json.obj o) ++ rest = lbrace :: (serObjInner o ++ rbrace :: rest) by
          simp [serV]]
        rw [parseV_lbrace]
        rw [ihO o rest (by simp only [sizeV] at hf; omega) (by simpa [wfV] using hwf)]
        rfl
    · intro a rest hf hwf
      cases a with
      | nil =>
        rw [show serArrInner JArr.nil ++ ']' :: rest = ']' :: rest by
          simp [serArrInner]]
        rfl
      | cons x t =>
        simp only [wfA, Bool.and_eq_true] at hwf
        obtain ⟨c, l, hserv, hws, hbr, _⟩ := serV_head x
        have hinner : serArrInner (JArr.cons x t) ++ ']' :: rest =
            c :: (l ++ (arrSep t ++ ']' :: rest)) := by
          rw [serArrInner_cons, hserv]
          simp [List.append_assoc]
        rw [hinner]
        unfold parseArrBody
        rw [skipWs_cons _ _ hws]
        split
        · rename_i r heq
          injection heq with h1 h2
          exact absurd h1 hbr
        · rename_i hno
          rw [← hinner]
          exact ihAE x t rest (by simp only [sizeA] at hf; omega) hwf.1 hwf.2
    · intro x t rest hf hwx hwt
      rw [serArrInner_cons, List.append_assoc]
      cases t with
      | nil =>
        simp only [arrSep, List.nil_append]
        exact parseArrElems_last f x _ rest
          (ihV x (']' :: rest) (by simp only [sizeA] at hf; omega) hwx (by rfl))
      | cons y u =>
        simp only [wfA, Bool.and_eq_true] at hwt
        simp only [arrSep, List.cons_append]
        rw [parseArrElems_step f x _ _
          (ihV x (',' :: (serArrInner (JArr.cons y u) ++ ']' :: rest))
            (by simp only [sizeA] at hf; have := sizeA_pos u; have := sizeV_pos y; omega)
            hwx (by rfl))]
        rw [ihAE y u rest
          (by simp only [sizeA] at hf; have := sizeV_pos x; omega) hwt.1 hwt.2]
        rfl
    · intro o rest hf hwf
      cases o with
      | nil =>
        rw [show serObjInner JObj.nil ++ rbrace :: rest = rbrace :: rest by
          simp [serObjInner]]
        rfl
      | cons k v t =>
        simp only [wfO, Bool.and_eq_true] at hwf
        rw [serObjInner_cons]
        have hshape : (serStr k ++ ':' :: (serV v ++ objSep t)) ++ rbrace :: rest =
            '"' :: (escStr k ++ '"' :: (':' :: (serV v ++ (objSep t ++ rbrace :: rest)))) := by
          simp [serStr, List.append_assoc]
        rw [hshape, parseObjBody_quote, ← hshape, ← serObjInner_cons]
        exact ihOM k v t rest (by simp only [sizeO] at hf; omega) hwf.1.1 hwf.1.2 hwf.2
    · intro k v t rest hf hk hv ht
      rw [serObjInner_cons]
      have hshape : (serStr k ++ ':' :: (serV v ++ objSep t)) ++ rbrace :: rest =
          '"' :: (escStr k ++ '"' :: (':' :: (serV v ++ (objSep t ++ rbrace :: rest)))) := by
        simp [serStr, List.append_assoc]
      rw [hshape]
      cases t with
      | nil =>
        simp only [objSep, List.nil_append]
        exact parseObjMems_last f _ _ rest k v (parse_escStr k _ hk)
          (ihV v (rbrace :: rest) (by simp only [sizeO] at hf; omega) hv (by rfl))
      | cons k2 v2 u =>
        simp only [wfO, Bool.and_eq_true] at ht
        simp only [objSep, List.cons_append]
        rw [parseObjMems_step f _ _ (serObjInner (JObj.cons k2 v2 u) ++ rbrace :: rest) k v
          (parse_escStr k _ hk)
          (ihV v (',' :: (serObjInner (JObj.cons k2 v2 u) ++ rbrace :: rest))
            (by simp only [sizeO] at hf; have := sizeO_pos u; have := sizeV_pos v2; omega)
            hv (by rfl))]
        rw [ihOM k2 v2 u rest
          (by simp only [sizeO] at hf; have := sizeV_pos v; omega) ht.1.1 ht.1.2 ht.2]
        rfl

mutual
theorem sizeV_le : ∀ v : Json, sizeV v ≤ 3 * (serV v).length
  | .null => by simp [sizeV, serV, chars]
  | .jbool true => by simp [sizeV, serV, chars]
  | .jbool false => by simp [sizeV, serV, chars]
  | .num n => by
    have h : 1 ≤ (serNum n).length := by
      unfold serNum
      split
      · simp
      · cases hq : natToChars n.toNat with
        | nil => exact absurd hq (natToChars_ne_nil _)
        | cons d ds => simp [hq]
    simp only [sizeV, serV]
    omega
  | .str s => by
    simp only [sizeV, serV, serStr]
    simp only [List.length_append, List.length_cons]
    omega
  | .arr a => by
    have h := sizeA_le a
    simp only [sizeV, serV] at h ⊢
    simp only [List.length_cons, List.length_append, List.length_singleton]
    omega
  | .obj o => by
    have h := sizeO_le o
    simp only [sizeV, serV] at h ⊢
    simp only [List.length_cons, List.length_append, List.length_singleton]
    omega

theorem sizeA_le : ∀ a : JArr, sizeA a ≤ 3 * (serArrInner a).length + 3
  | .nil => by simp [sizeA, serArrInner]
  | .cons x .nil => by
    have h1 := sizeV_le x
    simp only [sizeA, serArrInner]
    omega
  | .cons x (.cons y u) => by
    have h1 := sizeV_le x
    have h2 := sizeA_le (JArr.cons y u)
    simp only [sizeA, serArrInner, List.length_append, List.length_cons] at h2 ⊢
    omega

theorem sizeO_le : ∀ o : JObj, sizeO o ≤ 3 * (serObjInner o).length + 3
  | .nil => by simp [sizeO, serObjInner]
  | .cons k v .nil => by
    have h1 := sizeV_le v
    simp only [sizeO, serObjInner, serStr, List.length_append, List.length_cons]
    omega
  | .cons k v (.cons k2 v2 u) => by
    have h1 := sizeV_le v
    have h2 := sizeO_le (JObj.cons k2 v2 u)
    simp only [sizeO, serObjInner, serStr, List.length_append, List.length_cons] at h2 ⊢
    omega
end

theorem parseJsonStr_serV (v : Json) (hwf : wfV v = true) :
    parseJsonStr (serV v) = some v := by
  unfold parseJsonStr
  have hps : parseV (3 * (serV v).length + 3) (serV v ++ []) = some (v, []) :=
    (parse_ser _).1 v [] (by have := sizeV_le v; omega) hwf rfl
  rw [List.append_nil] at hps
  rw [hps]
  rfl

theorem ejScan_esc (c : Char) (rest : List Char) (bc : Int) (inStr : Bool) :
    ejScan (c :: rest) bc inStr true = (ejScan rest bc inStr false).map (· + 1) := rfl

theorem ejScan_backslash (rest : List Char) (bc : Int) (inStr : Bool) :
    ejScan ('\\' :: rest) bc inStr false = (ejScan rest bc inStr true).map (· + 1) := rfl

theorem ejScan_quote (rest : List Char) (bc : Int) (inStr : Bool) :
    ejScan ('"' :: rest) bc inStr false =
      (ejScan rest bc (!inStr) false).map (· + 1) := rfl

theorem ejScan_lbrace (rest : List Char) (bc : Int) :
    ejScan (lbrace :: rest) bc false false =
      (ejScan rest (bc + 1) false false).map (· + 1) := rfl

theorem ejScan_rbrace (rest : List Char) (bc : Int) (h : ¬ bc - 1 = 0) :
    ejScan (rbrace :: rest) bc false false =
      (ejScan rest (bc - 1) false false).map (· + 1) := by
  conv_lhs => unfold ejScan
  rw [if_neg (by decide), if_neg (by decide), if_neg (by decide), if_neg (by decide),
    if_pos (show rbrace = rbrace ∧ (!false) = true from ⟨rfl, rfl⟩), if_neg h]

theorem ejScan_other (c : Char) (rest : List Char) (bc : Int) (inStr : Bool)
    (h1 : c ≠ '\\') (h2 : c ≠ '"') (h3 : ¬ (c = lbrace ∧ (!inStr) = true))
    (h4 : ¬ (c = rbrace ∧ (!inStr) = true)) :
    ejScan (c :: rest) bc inStr false = (ejScan rest bc inStr false).map (· + 1) := by
  conv_lhs => unfold ejScan
  rw [if_neg (by decide), if_neg h1, if_neg h2, if_neg h3, if_neg h4]

theorem ejScan_chunk (l : List Char)
    (hl : ∀ c ∈ l, c ≠ '\\' ∧ c ≠ '"' ∧ c ≠ lbrace ∧ c ≠ rbrace) :
    ∀ (rest : List Char) (bc : Int),
    ejScan (l ++ rest) bc false false =
      (ejScan rest bc false false).map (· + l.length) := by
  induction l with
  | nil =>
    intro rest bc
    simp only [List.nil_append, List.length_nil]
    cases ejScan rest bc false false <;> rfl
  | cons c t ih =>
    intro rest bc
    obtain ⟨h1, h2, h3, h4⟩ := hl c (by simp)
    rw [List.cons_append, ejScan_other c _ bc false h1 h2 (by simp [h3]) (by simp [h4])]
    rw [ih (fun d hd => hl d (by simp [hd])) rest bc]
    cases ejScan rest bc false false with
    | none => rfl
    | some n =>
      simp only [Option.map_some', Option.some.injEq, List.length_cons]
      omega

theorem ejScan_escpair (e : Char) (X rest : List Char) (bc : Int)
    (h : ejScan (X ++ rest) bc true false =
      (ejScan rest bc true false).map (· + X.length)) :
    ejScan (['\\', e] ++ (X ++ rest)) bc true false =
      (ejScan rest bc true false).map (· + (['\\', e] ++ X).length) := by
  rw [show (['\\', e] : List Char) ++ (X ++ rest) = '\\' :: e :: (X ++ rest) from rfl]
  rw [ejScan_backslash, ejScan_esc, h]
  cases ejScan rest bc true false with
  | none => rfl
  | some n =>
    simp only [Option.map_some', Option.some.injEq, List.length_cons,
      List.length_append, List.length_nil]
    omega

theorem ejScan_escStr (s : List Char) : ∀ (rest : List Char) (bc : Int),
    ejScan (escStr s ++ rest) bc true false =
      (ejScan rest bc true false).map (· + (escStr s).length) := by
  induction s with
  | nil =>
    intro rest bc
    simp only [escStr, List.nil_append, List.length_nil]
    cases ejScan rest bc true false <;> rfl
  | cons c t ih =>
    intro rest bc
    simp only [escStr, List.append_assoc]
    by_cases h1 : c = '"'
    · rw [show escCh c = ['\\', '"'] by simp [escCh, h1]]
      exact ejScan_escpair '"' (escStr t) rest bc (ih rest bc)
    by_cases h2 : c = '\\'
    · rw [show escCh c = ['\\', '\\'] by simp [escCh, h1, h2]]
      exact ejScan_escpair '\\' (escStr t) rest bc (ih rest bc)
    by_cases h3 : c = '\n'
    · rw [show escCh c = ['\\', 'n'] by simp [escCh, h1, h2, h3]]
      exact ejScan_escpair 'n' (escStr t) rest bc (ih rest bc)
    by_cases h4 : c = '\t'
    · rw [show escCh c = ['\\', 't'] by simp [escCh, h1, h2, h3, h4]]
      exact ejScan_escpair 't' (escStr t) rest bc (ih rest bc)
    by_cases h5 : c = '\r'
    · rw [show escCh c = ['\\', 'r'] by simp [escCh, h1, h2, h3, h4, h5]]
      exact ejScan_escpair 'r' (escStr t) rest bc (ih rest bc)
    rw [show escCh c = [c] by simp [escCh, h1, h2, h3, h4, h5]]
    rw [show ([c] : List Char) ++ (escStr t ++ rest) = c :: (escStr t ++ rest) from rfl]
    rw [ejScan_other c _ bc true h2 h1 (by simp) (by simp)]
    rw [ih rest bc]
    cases ejScan rest bc true false with
    | none => rfl
    | some n =>
      simp only [Option.map_some', Option.some.injEq, List.length_cons,
        List.length_append, List.length_singleton, List.length_nil]
      omega

theorem ejScan_serStr (s : List Char) (rest : List Char) (bc : Int) :
    ejScan (serStr s ++ rest) bc false false =
      (ejScan rest bc false false).map (· + (serStr s).length) := by
  rw [show serStr s ++ rest = '"' :: (escStr s ++ ('"' :: rest)) by
    simp [serStr, List.append_assoc]]
  rw [ejScan_quote]
  simp only [Bool.not_false]
  rw [ejScan_escStr s ('"' :: rest) bc]
  rw [ejScan_quote]
  simp only [Bool.not_true]
  have hls : (serStr s).length = (escStr s).length + 2 := by
    simp [serStr]
  cases ejScan rest bc false false with
  | none => rfl
  | some n =>
    simp only [Option.map_some', Option.some.injEq]
    omega

theorem ejScan_serNum (n : Int) (rest : List Char) (bc : Int) :
    ejScan (serNum n ++ rest) bc false false =
      (ejScan rest bc false false).map (· + (serNum n).length) := by
  have hd : ∀ c ∈ serNum n, c ≠ '\\' ∧ c ≠ '"' ∧ c ≠ lbrace ∧ c ≠ rbrace := by
    intro c hc
    unfold serNum at hc
    have hdig : isDigitCh c = true ∨ c = '-' := by
      split at hc
      · rcases List.mem_cons.mp hc with h | h
        · exact Or.inr h
        · exact Or.inl (natToChars_digits _ c h)
      · exact Or.inl (natToChars_digits _ c hc)
    rcases hdig with h | h
    · exact ⟨digit_ne c h '\\' (by decide), digit_ne c h '"' (by decide),
        digit_ne c h lbrace (by decide), digit_ne c h rbrace (by decide)⟩
    · subst h
      exact ⟨by decide, by decide, by decide, by decide⟩
  exact ejScan_chunk (serNum n) hd rest bc

theorem scan_ser (n : Nat) :
    (∀ v : Json, sizeV v ≤ n → ∀ (rest : List Char) (bc : Int), 1 ≤ bc →
      ejScan (serV v ++ rest) bc false false =
        (ejScan rest bc false false).map (· + (serV v).length)) ∧
    (∀ a : JArr, sizeA a ≤ n → ∀ (rest : List Char) (bc : Int), 1 ≤ bc →
      ejScan (serArrInner a ++ rest) bc false false =
        (ejScan rest bc false false).map (· + (serArrInner a).length)) ∧
    (∀ o : JObj, sizeO o ≤ n → ∀ (rest : List Char) (bc : Int), 1 ≤ bc →
      ejScan (serObjInner o ++ rest) bc false false =
        (ejScan rest bc false false).map (· + (serObjInner o).length)) := by
  induction n with
  | zero =>
    refine ⟨?_, ?_, ?_⟩
    · intro v hs
      exact absurd hs (by have := sizeV_pos v; omega)
    · intro a hs
      exact absurd hs (by have := sizeA_pos a; omega)
    · intro o hs
      exact absurd hs (by have := sizeO_pos o; omega)
  | succ n ih =>
    obtain ⟨ihV, ihA, ihO⟩ := ih
    refine ⟨?_, ?_, ?_⟩
    · intro v hs rest bc hbc
      cases v with
      | null => exact ejScan_chunk _ (by decide) rest bc
      | jbool b => cases b <;> exact ejScan_chunk _ (by decide) rest bc
      | num m =>
        rw [show serV (Json.num m) = serNum m from rfl]
        exact ejScan_serNum m rest bc
      | str s =>
        rw [show serV (Json.str s) = serStr s from rfl]
        exact ejScan_serStr s rest bc
      | arr a =>
        rw [show serV (Json.arr a) ++ rest = '[' :: (serArrInner a ++ (']' :: rest)) by
          simp [serV]]
        rw [ejScan_other '[' _ bc false (by decide) (by decide) (by decide) (by decide)]
        rw [ihA a (by simp only [sizeV] at hs; omega) (']' :: rest) bc hbc]
        rw [ejScan_other ']' rest bc false (by decide) (by decide) (by decide) (by decide)]
        have hlen : (serV (Json.arr a)).length = (serArrInner a).length + 2 := by
          simp [serV]
        cases ejScan rest bc false false with
        | none => rfl
        | some m =>
          simp only [Option.map_some', Option.some.injEq]
          omega
      | obj o =>
        rw [show serV (Json.obj o) ++ rest = lbrace :: (serObjInner o ++ (rbrace :: rest)) by
          simp [serV]]
        rw [ejScan_lbrace]
        rw [ihO o (by simp only [sizeV] at hs; omega) (rbrace :: rest) (bc + 1) (by omega)]
        rw [ejScan_rbrace rest (bc + 1) (by omega)]
        have hb : bc + 1 - 1 = bc := by omega
        rw [hb]
        have hlen : (serV (Json.obj o)).length = (serObjInner o).length + 2 := by
          simp [serV]
        cases ejScan rest bc false false with
        | none => rfl
        | some m =>
          simp only [Option.map_some', Option.some.injEq]
          omega
    · intro a hs rest bc hbc
      cases a with
      | nil =>
        simp only [serArrInner, List.nil_append, List.length_nil]
        cases ejScan rest bc false false <;> rfl
      | cons x t =>
        rw [serArrInner_cons, List.append_assoc]
        rw [ihV x (by simp only [sizeA] at hs; have := sizeA_pos t; omega)
          (arrSep t ++ rest) bc hbc]
        cases t with
        | nil =>
          simp only [arrSep, List.nil_append]
          cases ejScan rest bc false false with
          | none => rfl
          | some m =>
            simp only [Option.map_some', Option.some.injEq, List.length_append,
              List.length_nil]
            omega
        | cons y u =>
          simp only [arrSep, List.cons_append]
          rw [ejScan_other ',' _ bc false (by decide) (by decide) (by decide) (by decide)]
          rw [ihA (JArr.cons y u) (by simp only [sizeA] at hs ⊢; have := sizeV_pos x; omega)
            rest bc hbc]
          cases ejScan rest bc false false with
          | none => rfl
          | some m =>
            simp only [Option.map_some', Option.some.injEq, List.length_append,
              List.length_cons]
            omega
    · intro o hs rest bc hbc
      cases o with
      | nil =>
        simp only [serObjInner, List.nil_append, List.length_nil]
        cases ejScan rest bc false false <;> rfl
      | cons k v t =>
        rw [serObjInner_cons]
        simp only [List.append_assoc, List.cons_append]
        rw [ejScan_serStr k _ bc]
        rw [ejScan_other ':' _ bc false (by decide) (by decide) (by decide) (by decide)]
        rw [ihV v (by simp only [sizeO] at hs; have := sizeO_pos t; omega)
          (objSep t ++ rest) bc hbc]
        cases t with
        | nil =>
          simp only [objSep, List.nil_append]
          cases ejScan rest bc false false with
          | none => rfl
          | some m =>
            simp only [Option.map_some', Option.some.injEq, List.length_append,
              List.length_cons, List.length_nil]
            omega
        | cons k2 v2 u =>
          simp only [objSep, List.cons_append]
          rw [ejScan_other ',' _ bc false (by decide) (by decide) (by decide) (by decide)]
          rw [ihO (JObj.cons k2 v2 u) (by simp only [sizeO] at hs ⊢; have := sizeV_pos v; omega)
            rest bc hbc]
          cases ejScan rest bc false false with
          | none => rfl
          | some m =>
            simp only [Option.map_some', Option.some.injEq, List.length_append,
              List.length_cons]
            omega

theorem escCh_no96 (d c : Char) (hd : d.toNat ≠ 96) (hc : c ∈ escCh d) :
    c.toNat ≠ 96 := by
  by_cases e1 : d = '"'
  · subst e1
    have h' : c = '\\' ∨ c = '"' := by simpa [escCh] using hc
    rcases h' with h | h <;> (subst h; decide)
  by_cases e2 : d = '\\'
  · subst e2
    have h' : c = '\\' := by simpa [escCh] using hc
    subst h'
    decide
  by_cases e3 : d = '\n'
  · subst e3
    have h' : c = '\\' ∨ c = 'n' := by simpa [escCh] using hc
    rcases h' with h | h <;> (subst h; decide)
  by_cases e4 : d = '\t'
  · subst e4
    have h' : c = '\\' ∨ c = 't' := by simpa [escCh] using hc
    rcases h' with h | h <;> (subst h; decide)
  by_cases e5 : d = '\r'
  · subst e5
    have h' : c = '\\' ∨ c = 'r' := by simpa [escCh] using hc
    rcases h' with h | h <;> (subst h; decide)
  have h' : c = d := by simpa [escCh, e1, e2, e3, e4, e5] using hc
  subst h'
  exact hd

theorem escStr_no96 (s : List Char) (h : strOk s = true) :
    ∀ c ∈ escStr s, c.toNat ≠ 96 := by
  induction s with
  | nil => intro c hc; simp [escStr] at hc
  | cons d t ih =>
    intro c hc
    simp only [strOk, List.all_cons, Bool.and_eq_true] at h
    obtain ⟨hd, ht⟩ := h
    have hd96 : d.toNat ≠ 96 := by
      simp only [Bool.and_eq_true, decide_eq_true_eq] at hd
      exact hd.2
    simp only [escStr] at hc
    rcases List.mem_append.mp hc with h1 | h1
    · exact escCh_no96 d c hd96 h1
    · exact ih ht c h1

theorem serStr_no96 (s : List Char) (h : strOk s = true) :
    ∀ c ∈ serStr s, c.toNat ≠ 96 := by
  intro c hc
  simp only [serStr] at hc
  rcases List.mem_cons.mp hc with h1 | h1
  · subst h1; decide
  rcases List.mem_append.mp h1 with h2 | h2
  · exact escStr_no96 s h c h2
  · have h3 : c = '"' := by simpa using h2
    subst h3; decide

theorem digit_no96 (c : Char) (h : isDigitCh c = true) : c.toNat ≠ 96 := by
  simp only [isDigitCh, Bool.and_eq_true, decide_eq_true_eq] at h
  omega

theorem serNum_no96 (m : Int) : ∀ c ∈ serNum m, c.toNat ≠ 96 := by
  intro c hc
  unfold serNum at hc
  have hdig : isDigitCh c = true ∨ c = '-' := by
    split at hc
    · rcases List.mem_cons.mp hc with h | h
      · exact Or.inr h
      · exact Or.inl (natToChars_digits _ c h)
    · exact Or.inl (natToChars_digits _ c hc)
  rcases hdig with h | h
  · exact digit_no96 c h
  · subst h; decide

theorem no96_ser (n : Nat) :
    (∀ v : Json, sizeV v ≤ n → wfV v = true → ∀ c ∈ serV v, c.toNat ≠ 96) ∧
    (∀ a : JArr, sizeA a ≤ n → wfA a = true → ∀ c ∈ serArrInner a, c.toNat ≠ 96) ∧
    (∀ o : JObj, sizeO o ≤ n → wfO o = true → ∀ c ∈ serObjInner o, c.toNat ≠ 96) := by
  induction n with
  | zero =>
    refine ⟨?_, ?_, ?_⟩
    · intro v hs
      exact absurd hs (by have := sizeV_pos v; omega)
    · intro a hs
      exact absurd hs (by have := sizeA_pos a; omega)
    · intro o hs
      exact absurd hs (by have := sizeO_pos o; omega)
  | succ n ih =>
    obtain ⟨ihV, ihA, ihO⟩ := ih
    refine ⟨?_, ?_, ?_⟩
    · intro v hs hwf c hc
      cases v with
      | null => revert hc; revert c; decide
      | jbool b => cases b <;> (revert hc; revert c; decide)
      | num m => exact serNum_no96 m c hc
      | str s => exact serStr_no96 s (by simpa [wfV] using hwf) c hc
      | arr a =>
        rw [show serV (Json.arr a) = '[' :: (serArrInner a ++ [']']) by simp [serV]] at hc
        rcases List.mem_cons.mp hc with h1 | h1
        · subst h1; decide
        rcases List.mem_append.mp h1 with h2 | h2
        · exact ihA a (by simp only [sizeV] at hs; omega) (by simpa [wfV] using hwf) c h2
        · have h3 : c = ']' := by simpa using h2
          subst h3; decide
      | obj o =>
        rw [show serV (Json.obj o) = lbrace :: (serObjInner o ++ [rbrace]) by simp [serV]] at hc
        rcases List.mem_cons.mp hc with h1 | h1
        · subst h1; decide
        rcases List.mem_append.mp h1 with h2 | h2
        · exact ihO o (by simp only [sizeV] at hs; omega) (by simpa [wfV] using hwf) c h2
        · have h3 : c = rbrace := by simpa using h2
          subst h3; decide
    · intro a hs hwf c hc
      cases a with
      | nil => simp [serArrInner] at hc
      | cons x t =>
        simp only [wfA, Bool.and_eq_true] at hwf
        rw [serArrInner_cons] at hc
        rcases List.mem_append.mp hc with h1 | h1
        · exact ihV x (by simp only [sizeA] at hs; have := sizeA_pos t; omega) hwf.1 c h1
        · cases t with
          | nil => simp [arrSep] at h1
          | cons y u =>
            simp only [arrSep] at h1
            rcases List.mem_cons.mp h1 with h2 | h2
            · subst h2; decide
            · exact ihA (JArr.cons y u)
                (by simp only [sizeA] at hs ⊢; have := sizeV_pos x; omega) hwf.2 c h2
    · intro o hs hwf c hc
      cases o with
      | nil => simp [serObjInner] at hc
      | cons k v t =>
        simp only [wfO, Bool.and_eq_true] at hwf
        rw [serObjInner_cons] at hc
        rcases List.mem_append.mp hc with h1 | h1
        · exact serStr_no96 k hwf.1.1 c h1
        rcases List.mem_cons.mp h1 with h2 | h2
        · subst h2; decide
        rcases List.mem_append.mp h2 with h3 | h3
        · exact ihV v (by simp only [sizeO] at hs; have := sizeO_pos t; omega) hwf.1.2 c h3
        · cases t with
          | nil => simp [objSep] at h3
          | cons k2 v2 u =>
            simp only [objSep] at h3
            rcases List.mem_cons.mp h3 with h4 | h4
            · subst h4; decide
            · exact ihO (JObj.cons k2 v2 u)
                (by simp only [sizeO] at hs ⊢; have := sizeV_pos v; omega) hwf.2 c h4

theorem findSub_none_of_no96 (l pat : List Char) (c0 : Char) (t0 : List Char)
    (hpat : pat = c0 :: t0) (hc0 : c0.toNat = 96) (hl : ∀ c ∈ l, c.toNat ≠ 96) :
    findSub l pat = none := by
  cases h : findSub l pat with
  | none => rfl
  | some i =>
    exfalso
    have hcs : containsSub l pat = true := by simp [containsSub, h]
    obtain ⟨pre, post, heq⟩ := (containsSub_iff l pat).mp hcs
    have hmem : c0 ∈ l := by
      subst heq
      subst hpat
      simp
    exact hl c0 hmem hc0

theorem trimBoth_cons_concat (c : Char) (m : List Char) (d : Char)
    (hc : isRustWs c = false) (hd : isRustWs d = false) :
    trimBoth (c :: (m ++ [d])) = c :: (m ++ [d]) := by
  simp [trimBoth, List.dropWhile_cons, hc, hd]

theorem ejScan_serObj (o : JObj) :
    ejScan (serV (Json.obj o)) 0 false false = some (serV (Json.obj o)).length := by
  have hshape : serV (Json.obj o) = lbrace :: (serObjInner o ++ [rbrace]) := by
    simp [serV]
  rw [hshape, ejScan_lbrace]
  rw [(scan_ser (sizeO o)).2.2 o (le_refl _) [rbrace] (0 + 1) (by omega)]
  rw [show ejScan [rbrace] (0 + 1 : Int) false false = some 1 from rfl]
  simp only [Option.map_some', Option.some.injEq, List.length_cons, List.length_append,
    List.length_singleton, List.length_nil]
  omega

theorem extract_json_ser (o : JObj) (hwf : wfO o = true) :
    extract_json (serV (Json.obj o)) = .ok (serV (Json.obj o)) := by
  have h96 : ∀ c ∈ serV (Json.obj o), c.toNat ≠ 96 :=
    (no96_ser (sizeV (Json.obj o))).1 (Json.obj o) (le_refl _) (by simpa [wfV] using hwf)
  have hparse : parseJsonStr (serV (Json.obj o)) = some (Json.obj o) :=
    parseJsonStr_serV _ (by simpa [wfV] using hwf)
  have hshape : serV (Json.obj o) = lbrace :: (serObjInner o ++ [rbrace]) := by
    simp [serV]
  have hcand : ejCandidate3 (serV (Json.obj o)) 0 = serV (Json.obj o) := by
    unfold ejCandidate3
    rw [List.drop_zero, ejScan_serObj o]
    dsimp only
    rw [List.take_length]
    rw [hshape]
    exact trimBoth_cons_concat lbrace (serObjInner o) rbrace (by decide) (by decide)
  unfold extract_json
  rw [findSub_none_of_no96 _ jsonFencePat (Char.ofNat 96) (chars "``json") rfl rfl h96]
  dsimp only
  unfold ejStep2
  rw [findSub_none_of_no96 _ fencePat (Char.ofNat 96) (chars "``") rfl rfl h96]
  dsimp only
  unfold ejStep3
  rw [show findChar (serV (Json.obj o)) lbrace = some 0 by rw [hshape]; simp [findChar]]
  dsimp only
  rw [hcand]
  unfold ejTry
  rw [hparse]
  rfl

/-- A syntactically valid schema object whose `concept` string spells a fenced
code block — `extract_json` hunts for the fence before attempting any parse. -/
def c3raw : List Char := chars "\x7b\"concept\": \"```json\\n\x7b\x7d\\n```\"\x7d"

/-- The JSON value `c3raw` parses to. -/
def c3val : Json :=
  Json.obj (JObj.cons (chars "concept")
    (Json.str (chars "```json\n\x7b\x7d\n```")) JObj.nil)

/-- Claim C3, amended: for every well-formed lesson-schema JSON object value
(strings escape-round-trip and contain no backtick), recovery round-trips on
the value's canonical serialized text: the text parses back to the same value,
`extract_json` returns the text unchanged, and `GeneratedContent::from_json` on
it equals decoding the value directly. -/
theorem C3_roundtrip_amended (o : JObj) (h : wfO o = true) :
    parseJsonStr (serV (Json.obj o)) = some (Json.obj o) ∧
    extract_json (serV (Json.obj o)) = .ok (serV (Json.obj o)) ∧
    GeneratedContent.from_json (serV (Json.obj o)) = decodeGC (Json.obj o) := by
  have hp := parseJsonStr_serV (Json.obj o) (by simpa [wfV] using h)
  refine ⟨hp, extract_json_ser o h, ?_⟩
  unfold GeneratedContent.from_json
  rw [hp]
  rfl

/-- Counterexample to claim C3 as stated: `c3raw` is a syntactically valid
JSON object meeting the lesson schema (it parses, and its value decodes), yet
`extract_json` returns the fenced fragment `\x7b\x7d` spelled inside the string
value — a string that parses to a different JSON value — and
`GeneratedContent::from_json` on it fails, so the round trip does not hold for
every valid raw text. -/
theorem C3_roundtrip_counterexample :
    parseJsonStr c3raw = some c3val ∧
    (decodeGC c3val).isSome = true ∧
    extract_json c3raw = .ok (chars "\x7b\x7d") ∧
    parseJsonStr (chars "\x7b\x7d") = some (Json.obj JObj.nil) ∧
    Json.obj JObj.nil ≠ c3val ∧
    GeneratedContent.from_json (chars "\x7b\x7d") = none := by
  refine ⟨by rfl, by rfl, by rfl, by rfl, ?_, by rfl⟩
  intro h
  simp only [c3val] at h
  injection h with h'
  exact JObj.noConfusion h'

/-- Witness for C3 (amended): the round trip holds at a concrete well-formed
schema object. -/
theorem C3_roundtrip_amended_witness :
    wfO (JObj.cons (chars "concept") (Json.str (chars "c")) JObj.nil) = true ∧
    (parseJsonStr (serV (Json.obj (JObj.cons (chars "concept") (Json.str (chars "c"))
        JObj.nil))) =
      some (Json.obj (JObj.cons (chars "concept") (Json.str (chars "c")) JObj.nil)) ∧
    extract_json (serV (Json.obj (JObj.cons (chars "concept") (Json.str (chars "c"))
        JObj.nil))) =
      .ok (serV (Json.obj (JObj.cons (chars "concept") (Json.str (chars "c")) JObj.nil))) ∧
    GeneratedContent.from_json (serV (Json.obj (JObj.cons (chars "concept")
        (Json.str (chars "c")) JObj.nil))) =
      decodeGC (Json.obj (JObj.cons (chars "concept") (Json.str (chars "c")) JObj.nil))) :=
  ⟨by decide, C3_roundtrip_amended _ (by decide)⟩
